import Mathlib

/-!
# Verification of the split-kernel scheduler (`device_split_kernel.cpp`)

A shallow embedding of `DeviceSplitKernel` from
`intern/cycles/device/device_split_kernel.cpp`: the constructor, the
destructor's frees, `load_kernels`, and `path_trace` with its work-size
arithmetic, one-time lane-buffer allocation, the adaptive
round-budget loop, and the final reduction dispatch.

Machine integers: `unsigned int` quantities wrap modulo `2^32`
(`u32` / `usub32`); `size_t` quantities stay well below `2^64` for the
value ranges considered and are modelled as plain `Nat`.

Constants that live in headers outside this repository snapshot
(`PATH_ITER_INC_FACTOR`, `SPLIT_KERNEL_LOCAL_SIZE_X/Y`, `NUM_QUEUES`,
`RAY_INACTIVE`, `sizeof_KernelGlobals`) are parameters of `SKConfig`.
The external `Device`, `DeviceTask` and ray-state contents are an
`Oracle`: streams of enqueue results, cancellation polls and ray-state
snapshots, consumed in program order.
-/

/-- `unsigned int` truncation (32-bit wrap-around). -/
def u32 (n : Nat) : Nat := n % 4294967296

/-- `unsigned int` subtraction `a - b` with 32-bit wrap-around
(both operands already reduced mod `2^32` by `u32` where needed). -/
def usub32 (a b : Nat) : Nat := (a + (4294967296 - b % 4294967296)) % 4294967296

/-- `(((x - 1) / L) + 1) * L`: round `x` up to the next multiple of `L`,
exactly as written at the dispatch-sizing sites (C integer division;
for `x = 0` the C expression `(0 - 1) / L` is `(-1)/L = 0` under
truncating division, which agrees with `Nat` subtraction here). -/
def roundUp (x L : Nat) : Nat := ((x - 1) / L + 1) * L

/-- The ten split-kernel pipeline stages, in source order. -/
inductive SKern where
  | scene_intersect
  | lamp_emission
  | queue_enqueue
  | background_buffer_update
  | shader_eval
  | holdout_emission_blurring_pathtermination_ao
  | direct_lighting
  | shadow_blocked
  | next_iteration_setup
  | sum_all_radiance
deriving DecidableEq, Repr

/-- The device-memory members freed by the destructor. -/
inductive SKBuffer where
  | kgbuffer
  | split_data
  | ray_state
  | use_queues_flag
  | queue_index
  | work_pool_wgs
deriving DecidableEq, Repr

/-- Observable interactions with the external `Device`, in program order. -/
inductive Event where
  | allocWorkPool (bytes : Nat)
  | allocQueueIndex (bytes : Nat)
  | allocUseQueuesFlag (bytes : Nat)
  | allocKgbuffer (bytes : Nat)
  | allocRayState (elems : Nat)
  | allocSplitData (elems : Nat) (maxClosure : Int) (outSize : Nat)
  | dataInit (g0 g1 l0 l1 : Nat)
  | enq (k : SKern) (g0 g1 l0 l1 : Nat)
  | copyRayState (bytes : Nat)
  | free (b : SKBuffer)
deriving DecidableEq, Repr

/-- Is this event a `mem_alloc` call? -/
def Event.isAlloc : Event → Bool
  | .allocWorkPool _ => true
  | .allocQueueIndex _ => true
  | .allocUseQueuesFlag _ => true
  | .allocKgbuffer _ => true
  | .allocRayState _ => true
  | .allocSplitData .. => true
  | _ => false

/-- Is this event a kernel `enqueue` call? -/
def Event.isEnq : Event → Bool
  | .enq .. => true
  | _ => false

/-- Is this event a `mem_free` call? -/
def Event.isFree : Event → Bool
  | .free _ => true
  | _ => false

/-- Is this event an enqueue of the `sum_all_radiance` reduction stage? -/
def Event.isSumEnq : Event → Bool
  | .enq .sum_all_radiance .. => true
  | _ => false

/-- Compile-time constants of the scheduler that live in kernel headers
outside this repository snapshot, plus the strategy switch
(`__WORK_STEALING__`). -/
structure SKConfig where
  /-- `SPLIT_KERNEL_LOCAL_SIZE_X`. -/
  LX : Nat
  /-- `SPLIT_KERNEL_LOCAL_SIZE_Y`. -/
  LY : Nat
  /-- `PATH_ITER_INC_FACTOR`. -/
  INC : Nat
  /-- `NUM_QUEUES`. -/
  NUM_QUEUES : Nat
  /-- The `RAY_INACTIVE` ray-state value (compared against `int8_t`). -/
  RAY_INACTIVE : Int
  /-- Whether `__WORK_STEALING__` is defined. -/
  workStealing : Bool
  /-- `device->sizeof_KernelGlobals()`. -/
  kgSize : Nat
deriving DecidableEq, Repr, Inhabited

/-- The scheduler's mutable cross-tile state (`DeviceSplitKernel` members). -/
structure DeviceSplitKernel where
  path_iteration_times : Nat
  current_max_closure : Int
  first_tile : Bool
deriving DecidableEq, Repr, Inhabited

/-- The constructor `DeviceSplitKernel::DeviceSplitKernel`. -/
def DeviceSplitKernel.construct (cfg : SKConfig) : DeviceSplitKernel :=
  { path_iteration_times := cfg.INC
    current_max_closure := -1
    first_tile := true }

/-- The destructor's `mem_free` calls, in source order. -/
def DeviceSplitKernel.destructorEvents : List Event :=
  [.free .kgbuffer, .free .split_data, .free .ray_state,
   .free .use_queues_flag, .free .queue_index, .free .work_pool_wgs]

/-- `DeviceRequestedFeatures` (only the field this file reads). -/
structure DeviceRequestedFeatures where
  max_closure : Int
deriving DecidableEq, Repr

/-- The `LOAD_KERNEL` sequence of `load_kernels`, in source order. -/
def pipelineKernels : List SKern :=
  [.scene_intersect, .lamp_emission, .queue_enqueue,
   .background_buffer_update, .shader_eval,
   .holdout_emission_blurring_pathtermination_ao,
   .direct_lighting, .shadow_blocked, .next_iteration_setup,
   .sum_all_radiance]

/-- The chain of `LOAD_KERNEL(name)` early returns: `true` only if every
stage in `ks` resolves to a non-null function. -/
def loadChain (avail : SKern → Bool) : List SKern → Bool
  | [] => true
  | k :: ks => if avail k then loadChain avail ks else false

/-- `DeviceSplitKernel::load_kernels`: load the ten stages in order,
returning `false` at the first null stage (leaving `current_max_closure`
untouched); on success record `requested_features.max_closure`. -/
def load_kernels (avail : SKern → Bool) (requested_features : DeviceRequestedFeatures)
    (st : DeviceSplitKernel) : Bool × DeviceSplitKernel :=
  if loadChain avail pipelineKernels then
    (true, { st with current_max_closure := requested_features.max_closure })
  else
    (false, st)

/-- `RenderTile` (the fields `path_trace` reads). -/
structure RenderTile where
  w : Nat
  h : Nat
  num_samples : Nat
deriving DecidableEq, Repr, Inhabited

/-- `int2 max_render_feasible_tile_size`. -/
structure Int2 where
  x : Nat
  y : Nat
deriving DecidableEq, Repr, Inhabited

/-- Fixed-allocation strategy: `unsigned int num_threads =
max_render_feasible_tile_size.x * max_render_feasible_tile_size.y;`. -/
def numThreadsFA (mx my : Nat) : Nat := u32 (mx * my)

/-- Fixed-allocation strategy: `num_tile_columns_possible =
num_threads / global_size[1]`. -/
def numTileColumnsPossible (mx my h LY : Nat) : Nat :=
  numThreadsFA mx my / roundUp h LY

/-- Fixed-allocation strategy: the raw estimate
`min(num_tile_columns_possible / d_w, rtile.num_samples)`. -/
def npsRaw (mx my w h ns LY : Nat) : Nat :=
  min (numTileColumnsPossible mx my h LY / w) ns

/-- Fixed-allocation strategy: `num_parallel_samples`, floored to a
multiple of the wavefront width 64 when at least 64. -/
def num_parallel_samplesFA (mx my w h ns LY : Nat) : Nat :=
  let raw := npsRaw mx my w h ns LY
  if 64 ≤ raw then raw / 64 * 64 else raw

/-- `global_size[0]` for the current tile: rounded-up width under
work-stealing, `d_w * num_parallel_samples` (unsigned) otherwise. -/
def globalSize0 (cfg : SKConfig) (t : RenderTile) (mt : Int2) : Nat :=
  if cfg.workStealing then
    roundUp t.w cfg.LX
  else
    u32 (t.w * num_parallel_samplesFA mt.x mt.y t.w t.h t.num_samples cfg.LY)

/-- `global_size[1]` for the current tile (same in both strategies). -/
def globalSize1 (cfg : SKConfig) (t : RenderTile) : Nat :=
  roundUp t.h cfg.LY

/-- `num_parallel_samples` (1 under work-stealing). -/
def num_parallel_samples (cfg : SKConfig) (t : RenderTile) (mt : Int2) : Nat :=
  if cfg.workStealing then 1
  else num_parallel_samplesFA mt.x mt.y t.w t.h t.num_samples cfg.LY

/-- The external world of one `path_trace` call: result streams of the
`Device` and `DeviceTask` collaborators, consumed in program order. -/
structure Oracle where
  /-- Result of `enqueue_split_kernel_data_init`. -/
  dataInitOk : Bool
  /-- Result of the `n`-th split-kernel `enqueue` call (0-based). -/
  enqOk : Nat → Bool
  /-- Result of the `n`-th `task->get_cancel()` poll (0-based). -/
  cancel : Nat → Bool
  /-- `ray (n) (i)`: the `int8_t` value of lane `i`'s ray-state byte as
  read back by the `n`-th `mem_copy_from` (0-based). -/
  ray : Nat → Nat → Int

/-- `global_size_shadow_blocked[0] = global_size[0] * 2`; every other
stage uses `global_size[0]` itself. -/
def kernelGlobal0 (k : SKern) (g0 : Nat) : Nat :=
  if k = SKern.shadow_blocked then g0 * 2 else g0

/-- The nine stages enqueued each round of the path-iteration loop,
in source order (the reduction stage is not among them). -/
def roundKernels : List SKern :=
  [.scene_intersect, .lamp_emission, .queue_enqueue,
   .background_buffer_update, .shader_eval,
   .holdout_emission_blurring_pathtermination_ao,
   .direct_lighting, .shadow_blocked, .next_iteration_setup]

/-- The event block of one fully issued round. -/
def roundEvents (g0 g1 l0 l1 : Nat) : List Event :=
  [.enq .scene_intersect g0 g1 l0 l1,
   .enq .lamp_emission g0 g1 l0 l1,
   .enq .queue_enqueue g0 g1 l0 l1,
   .enq .background_buffer_update g0 g1 l0 l1,
   .enq .shader_eval g0 g1 l0 l1,
   .enq .holdout_emission_blurring_pathtermination_ao g0 g1 l0 l1,
   .enq .direct_lighting g0 g1 l0 l1,
   .enq .shadow_blocked (g0 * 2) g1 l0 l1,
   .enq .next_iteration_setup g0 g1 l0 l1]

/-- Outcome of one round's `ENQUEUE_SPLIT_KERNEL` chain. -/
structure RoundOut where
  events : List Event
  enqIdx : Nat
  ok : Bool
deriving DecidableEq, Repr, Inhabited

/-- One round: enqueue the stages of `ks` in order, stopping at the
first `enqueue` that returns `false` (the macro's early `return`). -/
def enqueueRound (enqOk : Nat → Bool) (g0 g1 l0 l1 : Nat) :
    List SKern → Nat → RoundOut
  | [], n => ⟨[], n, true⟩
  | k :: ks, n =>
    if enqOk n then
      let r := enqueueRound enqOk g0 g1 l0 l1 ks (n + 1)
      ⟨Event.enq k (kernelGlobal0 k g0) g1 l0 l1 :: r.events, r.enqIdx, r.ok⟩
    else
      ⟨[Event.enq k (kernelGlobal0 k g0) g1 l0 l1], n + 1, false⟩

/-- Outcome of one batch (the inner `for(PathIter ...)` loop). -/
structure BatchOut where
  events : List Event
  enqIdx : Nat
  pollIdx : Nat
  canceled : Bool
  ok : Bool
  issued : Nat
deriving DecidableEq, Repr, Inhabited

/-- The inner `for(PathIter = 0; PathIter < path_iteration_times; ...)`
loop: issue up to `r` rounds; after each round poll `get_cancel()` and
break (with `canceled = true`) if it returns `true`; an `enqueue`
failure aborts the whole call (`ok = false`). -/
def runBatch (o : Oracle) (g0 g1 l0 l1 : Nat) :
    Nat → Nat → Nat → BatchOut
  | 0, en, po => ⟨[], en, po, false, true, 0⟩
  | r + 1, en, po =>
    let rd := enqueueRound o.enqOk g0 g1 l0 l1 roundKernels en
    if rd.ok then
      if o.cancel po then
        ⟨rd.events, rd.enqIdx, po + 1, true, true, 1⟩
      else
        let rest := runBatch o g0 g1 l0 l1 r rd.enqIdx (po + 1)
        ⟨rd.events ++ rest.events, rest.enqIdx, rest.pollIdx,
         rest.canceled, rest.ok, rest.issued + 1⟩
    else
      ⟨rd.events, rd.enqIdx, po, false, false, 1⟩

/-- Host-side activity scan (the `rayStateIter` loop with its break):
is any of the first `n` ray-state bytes different from `RAY_INACTIVE`? -/
def scanActive (snap : Nat → Int) (RI : Int) (n : Nat) : Bool :=
  (List.range n).any fun i => snap i != RI

/-- Outcome of the outer `while(activeRaysAvailable)` loop. -/
structure LoopOut where
  events : List Event
  pit : Nat
  numNext : Nat
  numHI : Nat
  canceled : Bool
  ok : Bool
  outerIters : Nat
  enqIdx : Nat
deriving DecidableEq, Repr, Inhabited

/-- The outer `while(activeRaysAvailable)` loop of `path_trace`.
Arguments after the dispatch sizes: remaining fuel (the loop has no
intrinsic bound; `none` = fuel exhausted before the loop exited), then
the live values of `path_iteration_times`, `numNextPathIterTimes`,
`numHostIntervention`, `canceled`, the enqueue-result index, the
cancel-poll index, and the count of ray-state copies done so far. -/
def outerLoop (o : Oracle) (RI : Int) (INC g0 g1 l0 l1 : Nat) :
    Nat → Nat → Nat → Nat → Bool → Nat → Nat → Nat → Option LoopOut
  | 0, _, _, _, _, _, _, _ => none
  | fuel + 1, pit, nn, hi, c, en, po, t =>
    let b := runBatch o g0 g1 l0 l1 pit en po
    if b.ok then
      let active := scanActive (o.ray t) RI (g0 * g1)
      let pit' := if active then INC else pit
      let nn' := if active then u32 (nn + INC) else nn
      let hi' := if active then hi + 1 else hi
      if o.cancel b.pollIdx then
        some ⟨b.events ++ [Event.copyRayState (g0 * g1)],
              pit', nn', hi', true, true, t + 1, b.enqIdx⟩
      else if active then
        (outerLoop o RI INC g0 g1 l0 l1 fuel pit' nn' hi'
            (c || b.canceled) b.enqIdx (b.pollIdx + 1) (t + 1)).map
          fun rest =>
            ⟨b.events ++ [Event.copyRayState (g0 * g1)] ++ rest.events,
             rest.pit, rest.numNext, rest.numHI, rest.canceled, rest.ok,
             rest.outerIters, rest.enqIdx⟩
      else
        some ⟨b.events ++ [Event.copyRayState (g0 * g1)],
              pit', nn', hi', c || b.canceled, true, t + 1, b.enqIdx⟩
    else
      some ⟨b.events, pit, nn, hi, c || b.canceled, false, t, b.enqIdx⟩

/-- The post-loop tuning of `path_iteration_times` (lines 253-265):
unsigned comparison `(numNextPathIterTimes - PATH_ITER_INC_FACTOR) <= 0`
is an equality-with-0 test in `unsigned int` arithmetic. -/
def budgetUpdate (INC numHI numNext : Nat) : Nat :=
  if numHI = 0 then
    if usub32 numNext INC ≤ 0 then INC else usub32 numNext INC
  else
    numNext

/-- The `mem_alloc` calls of the `first_tile` block (lines 121-148), in
source order; the work-pool allocation happens only under
`__WORK_STEALING__`. -/
def allocEvents (cfg : SKConfig) (st : DeviceSplitKernel) (mt : Int2)
    (per_thread_output_buffer_size : Nat) : List Event :=
  (if cfg.workStealing then
    [Event.allocWorkPool
      (u32 ((roundUp mt.x cfg.LX * roundUp mt.y cfg.LY) / (cfg.LX * cfg.LY)) * 4)]
   else []) ++
  [Event.allocQueueIndex (cfg.NUM_QUEUES * 4),
   Event.allocUseQueuesFlag 1,
   Event.allocKgbuffer cfg.kgSize,
   Event.allocRayState (mt.x * mt.y),
   Event.allocSplitData (mt.x * mt.y) st.current_max_closure
     per_thread_output_buffer_size]

/-- The observable outcome of one `path_trace` call: its return value,
whether `canceled` latched, the `Device` interaction log, the scheduler
state on return, and the loop counters needed by the scheduling claims. -/
structure PTResult where
  success : Bool
  canceled : Bool
  events : List Event
  st : DeviceSplitKernel
  numHI : Nat
  numNext : Nat
  outerIters : Nat
deriving DecidableEq, Repr, Inhabited

/-- `DeviceSplitKernel::path_trace`: size the dispatch, allocate the lane
buffers on the first tile, run the data-init dispatch, drive the outer
loop, enqueue the reduction when not canceled, and retune
`path_iteration_times`. `none` = the outer loop outran `fuel`. -/
def pathTrace (cfg : SKConfig) (st : DeviceSplitKernel) (o : Oracle)
    (rtile : RenderTile) (mt : Int2)
    (per_thread_output_buffer_size : Nat) (fuel : Nat) : Option PTResult :=
  let g0 := globalSize0 cfg rtile mt
  let g1 := globalSize1 cfg rtile
  let aEvs := if st.first_tile then
      allocEvents cfg st mt per_thread_output_buffer_size
    else []
  let dEv := Event.dataInit g0 g1 cfg.LX cfg.LY
  if o.dataInitOk then
    match outerLoop o cfg.RAY_INACTIVE cfg.INC g0 g1 cfg.LX cfg.LY fuel
        st.path_iteration_times st.path_iteration_times 0 false 0 0 0 with
    | none => none
    | some lo =>
      if lo.ok then
        if lo.canceled then
          some ⟨true, true, aEvs ++ [dEv] ++ lo.events,
                { st with
                    path_iteration_times := budgetUpdate cfg.INC lo.numHI lo.numNext
                    first_tile := false },
                lo.numHI, lo.numNext, lo.outerIters⟩
        else
          let sEv := Event.enq .sum_all_radiance
            (roundUp rtile.w 16) (roundUp rtile.h 16) 16 16
          if o.enqOk lo.enqIdx then
            some ⟨true, false, aEvs ++ [dEv] ++ lo.events ++ [sEv],
                  { st with
                      path_iteration_times := budgetUpdate cfg.INC lo.numHI lo.numNext
                      first_tile := false },
                  lo.numHI, lo.numNext, lo.outerIters⟩
          else
            some ⟨false, false, aEvs ++ [dEv] ++ lo.events ++ [sEv],
                  { st with path_iteration_times := lo.pit },
                  lo.numHI, lo.numNext, lo.outerIters⟩
      else
        some ⟨false, lo.canceled, aEvs ++ [dEv] ++ lo.events,
              { st with path_iteration_times := lo.pit },
              lo.numHI, lo.numNext, lo.outerIters⟩
  else
    some ⟨false, false, aEvs ++ [dEv], st, 0, st.path_iteration_times, 0⟩

/-- Inputs of one `path_trace` call inside a multi-tile sequence. -/
structure CallInput where
  o : Oracle
  rtile : RenderTile
  mt : Int2
  per_thread_output_buffer_size : Nat
  fuel : Nat

/-- Run a sequence of `path_trace` calls on one scheduler instance,
threading the scheduler state through. -/
def runCalls (cfg : SKConfig) (st : DeviceSplitKernel) :
    List CallInput → Option (List PTResult × DeviceSplitKernel)
  | [] => some ([], st)
  | c :: cs =>
    match pathTrace cfg st c.o c.rtile c.mt c.per_thread_output_buffer_size c.fuel with
    | none => none
    | some r =>
      match runCalls cfg r.st cs with
      | none => none
      | some (rs, st') => some (r :: rs, st')

/-- Number of kernel-`enqueue` calls recorded in an event log. -/
def countEnq (l : List Event) : Nat := (l.filter Event.isEnq).length

/-! ## Concrete instances used by witnesses and counterexamples -/

/-- Work-stealing configuration with a 64x1 local shape. -/
def cfgC2 : SKConfig := ⟨64, 1, 8, 4, 1, true, 8⟩

/-- A 128x1 tile: both dimensions are multiples of the 64x1 local shape. -/
def tC2 : RenderTile := ⟨128, 1, 1⟩

/-- A 64x1 maximum feasible tile size (multiples of the local shape). -/
def mtC2 : Int2 := ⟨64, 1⟩

/-- A quiet device: data-init and all enqueues succeed, cancellation is
never requested, every lane reads back as ray-state byte `1`. -/
def oQuiet : Oracle := ⟨true, fun _ => true, fun _ => false, fun _ _ => 1⟩

/-- Small work-stealing configuration with `RAY_INACTIVE = 1`, increment 2. -/
def cfgW : SKConfig := ⟨1, 1, 2, 4, 1, true, 8⟩

/-- A 2x1 tile requesting one sample. -/
def tHW : RenderTile := ⟨2, 1, 1⟩

/-- A 2x1 maximum feasible tile size. -/
def mtHW : Int2 := ⟨2, 1⟩

/-- A quiet single-tile run that converges at the first activity scan. -/
def resW : PTResult :=
  (pathTrace cfgW (DeviceSplitKernel.construct cfgW) oQuiet tHW mtHW 0 2).getD default

/-- A device whose task reports cancellation at every poll and whose lanes
stay active. -/
def oCancelW : Oracle := ⟨true, fun _ => true, fun _ => true, fun _ _ => 0⟩

/-- A run canceled at the first poll. -/
def resW7 : PTResult :=
  (pathTrace cfgW (DeviceSplitKernel.construct cfgW) oCancelW tHW mtHW 0 2).getD default

/-- A device whose fourth kernel enqueue (index 3) fails. -/
def oFailW : Oracle := ⟨true, fun n => n != 3, fun _ => false, fun _ _ => 0⟩

/-- A run aborted by the enqueue failure at index 3. -/
def resW8 : PTResult :=
  (pathTrace cfgW (DeviceSplitKernel.construct cfgW) oFailW tHW mtHW 0 2).getD default

/-- Fixed-allocation configuration for the allocation counterexample. -/
def cfgC5 : SKConfig := ⟨1, 1, 1, 1, 0, false, 1⟩

/-- A device whose data-init dispatch fails. -/
def oInitFail : Oracle := ⟨false, fun _ => true, fun _ => false, fun _ _ => 0⟩

/-- One call input whose data-init dispatch fails. -/
def cinC5 : CallInput := ⟨oInitFail, ⟨1, 1, 1⟩, ⟨1, 1⟩, 0, 1⟩

/-- Two consecutive calls whose data-init dispatches fail: the first-tile
flag never clears, so the second call allocates again. -/
def runC5 : List PTResult × DeviceSplitKernel :=
  (runCalls cfgC5 (DeviceSplitKernel.construct cfgC5) [cinC5, cinC5]).getD ([], default)

/-- Fixed-allocation configuration with `RAY_INACTIVE = 1`, increment 1. -/
def cfgW5 : SKConfig := ⟨1, 1, 1, 1, 1, false, 1⟩

/-- One quiet call input on a 1x1 tile. -/
def cinW5 : CallInput := ⟨oQuiet, ⟨1, 1, 1⟩, ⟨1, 1⟩, 0, 2⟩

/-- Two consecutive successful calls on one scheduler instance. -/
def runW5 : List PTResult × DeviceSplitKernel :=
  (runCalls cfgW5 (DeviceSplitKernel.construct cfgW5) [cinW5, cinW5]).getD ([], default)

/-- A device on which every pipeline stage resolves. -/
def availW6 : SKern → Bool := fun _ => true

/-- A device on which the shader-eval stage is unavailable. -/
def availW6f : SKern → Bool := fun k => !(k == SKern.shader_eval)

/-- A feature request with seven shading closures. -/
def featW6 : DeviceRequestedFeatures := ⟨7⟩

/-- A freshly constructed scheduler for the kernel-loading witness. -/
def stW6 : DeviceSplitKernel := DeviceSplitKernel.construct cfgW

/-! ## Arithmetic helper lemmas -/

theorem u32_le (n : Nat) : u32 n ≤ n := Nat.mod_le n 4294967296

theorem u32_lt (n : Nat) : u32 n < 4294967296 :=
  Nat.mod_lt n (by norm_num)

theorem u32_eq_of_lt {n : Nat} (h : n < 4294967296) : u32 n = n :=
  Nat.mod_eq_of_lt h

theorem u32_u32_add (a b : Nat) : u32 (u32 a + b) = u32 (a + b) :=
  Nat.mod_add_mod a 4294967296 b

theorem usub32_of_le {a b : Nat} (hb : b ≤ a) (ha : a < 4294967296) :
    usub32 a b = a - b := by
  unfold usub32
  have hbm : b % 4294967296 = b := Nat.mod_eq_of_lt (lt_of_le_of_lt hb ha)
  rw [hbm]
  have h1 : a + (4294967296 - b) = 4294967296 + (a - b) := by omega
  rw [h1, Nat.add_mod_left]
  exact Nat.mod_eq_of_lt (by omega)

theorem roundUp_pos {x L : Nat} (hL : 0 < L) : 0 < roundUp x L :=
  Nat.mul_pos (Nat.succ_pos _) hL

theorem roundUp_eq_self {x L : Nat} (hL : 0 < L) (hd : L ∣ x) (hx : 0 < x) :
    roundUp x L = x := by
  obtain ⟨k, rfl⟩ := hd
  have hk : 0 < k := by
    rcases Nat.eq_zero_or_pos k with h | h
    · subst h; simp at hx
    · exact h
  have hq : (L * k - 1) / L = k - 1 := by
    have h1 : (L * k - 1) / L < k := by
      rw [Nat.div_lt_iff_lt_mul hL]
      have hmc : k * L = L * k := Nat.mul_comm k L
      omega
    have h2 : k - 1 ≤ (L * k - 1) / L := by
      rw [Nat.le_div_iff_mul_le hL]
      have h3 : (k - 1) * L < k * L := (Nat.mul_lt_mul_right hL).mpr (by omega)
      have h4 : k * L = L * k := Nat.mul_comm k L
      omega
    omega
  unfold roundUp
  rw [hq]
  have hk1 : k - 1 + 1 = k := by omega
  rw [hk1]
  exact Nat.mul_comm k L

theorem roundUp_le {x L m : Nat} (hL : 0 < L) (hx : 0 < x) (hxm : x ≤ m)
    (hd : L ∣ m) : roundUp x L ≤ m := by
  obtain ⟨k, rfl⟩ := hd
  have hdiv : (x - 1) / L < k := by
    rw [Nat.div_lt_iff_lt_mul hL]
    calc x - 1 < x := by omega
    _ ≤ L * k := hxm
    _ = k * L := Nat.mul_comm L k
  calc ((x - 1) / L + 1) * L ≤ k * L := Nat.mul_le_mul_right L hdiv
  _ = L * k := Nat.mul_comm k L

/-! ## Lemmas about one round's enqueue chain -/

theorem enqueueRound_idx (f : Nat → Bool) (g0 g1 l0 l1 : Nat) :
    ∀ (ks : List SKern) (n : Nat),
      n ≤ (enqueueRound f g0 g1 l0 l1 ks n).enqIdx ∧
      (enqueueRound f g0 g1 l0 l1 ks n).enqIdx =
        n + (enqueueRound f g0 g1 l0 l1 ks n).events.length ∧
      (enqueueRound f g0 g1 l0 l1 ks n).enqIdx ≤ n + ks.length := by
  intro ks
  induction ks with
  | nil => intro n; simp [enqueueRound]
  | cons k ks ih =>
    intro n
    simp only [enqueueRound]
    by_cases h : f n = true
    · obtain ⟨ih1, ih2, ih3⟩ := ih (n + 1)
      simp [h, List.length_cons]
      omega
    · simp at h
      simp [h]

theorem enqueueRound_events_mem (f : Nat → Bool) (g0 g1 l0 l1 : Nat) :
    ∀ (ks : List SKern) (n : Nat) (e : Event),
      e ∈ (enqueueRound f g0 g1 l0 l1 ks n).events →
      ∃ k, k ∈ ks ∧ e = Event.enq k (kernelGlobal0 k g0) g1 l0 l1 := by
  intro ks
  induction ks with
  | nil => intro n e he; simp [enqueueRound] at he
  | cons k ks ih =>
    intro n e he
    simp only [enqueueRound] at he
    by_cases h : f n = true
    · simp [h] at he
      rcases he with he | he
      · exact ⟨k, by simp, he⟩
      · obtain ⟨k', hk', he'⟩ := ih (n + 1) e he
        exact ⟨k', by simp [hk'], he'⟩
    · simp at h
      simp [h] at he
      exact ⟨k, by simp, he⟩

theorem enqueueRound_ok_true (f : Nat → Bool) (g0 g1 l0 l1 : Nat) :
    ∀ (ks : List SKern) (n : Nat),
      (enqueueRound f g0 g1 l0 l1 ks n).ok = true →
      (enqueueRound f g0 g1 l0 l1 ks n).enqIdx = n + ks.length ∧
      ∀ i, n ≤ i → i < n + ks.length → f i = true := by
  intro ks
  induction ks with
  | nil =>
    intro n _
    refine ⟨by simp [enqueueRound], ?_⟩
    intro i h1 h2
    simp only [List.length_nil] at h2
    omega
  | cons k ks ih =>
    intro n hok
    simp only [enqueueRound] at hok ⊢
    by_cases h : f n = true
    · simp only [h, if_true] at hok ⊢
      obtain ⟨ih1, ih2⟩ := ih (n + 1) hok
      constructor
      · simp only [List.length_cons]; omega
      · intro i hni hilt
        rcases Nat.eq_or_lt_of_le hni with heq | hlt
        · exact heq ▸ h
        · exact ih2 i hlt (by simp only [List.length_cons] at hilt; omega)
    · simp at h
      simp [h] at hok

theorem enqueueRound_ok_false (f : Nat → Bool) (g0 g1 l0 l1 : Nat) :
    ∀ (ks : List SKern) (n : Nat),
      (enqueueRound f g0 g1 l0 l1 ks n).ok = false →
      f ((enqueueRound f g0 g1 l0 l1 ks n).enqIdx - 1) = false ∧
      (∀ i, n ≤ i → i < (enqueueRound f g0 g1 l0 l1 ks n).enqIdx - 1 → f i = true) ∧
      n < (enqueueRound f g0 g1 l0 l1 ks n).enqIdx := by
  intro ks
  induction ks with
  | nil => intro n hok; simp [enqueueRound] at hok
  | cons k ks ih =>
    intro n hok
    simp only [enqueueRound] at hok ⊢
    by_cases h : f n = true
    · simp only [h, if_true] at hok ⊢
      obtain ⟨ih1, ih2, ih3⟩ := ih (n + 1) hok
      refine ⟨ih1, ?_, by omega⟩
      intro i hni hilt
      rcases Nat.eq_or_lt_of_le hni with heq | hlt
      · exact heq ▸ h
      · exact ih2 i hlt hilt
    · simp at h
      simp only [h, Bool.false_eq_true, if_false]
      refine ⟨h, ?_, by omega⟩
      intro i hni hilt
      omega

theorem enqueueRound_all_ok (f : Nat → Bool) (g0 g1 l0 l1 : Nat)
    (hok : ∀ i, f i = true) :
    ∀ (ks : List SKern) (n : Nat),
      enqueueRound f g0 g1 l0 l1 ks n =
        ⟨ks.map (fun k => Event.enq k (kernelGlobal0 k g0) g1 l0 l1),
         n + ks.length, true⟩ := by
  intro ks
  induction ks with
  | nil => intro n; simp [enqueueRound]
  | cons k ks ih =>
    intro n
    simp only [enqueueRound, hok n, if_true, ih (n + 1)]
    simp [List.length_cons]
    omega

theorem roundKernels_map_eq_roundEvents (g0 g1 l0 l1 : Nat) :
    roundKernels.map (fun k => Event.enq k (kernelGlobal0 k g0) g1 l0 l1) =
      roundEvents g0 g1 l0 l1 := by
  simp [roundKernels, roundEvents, kernelGlobal0]

/-! ## Lemmas about one batch (the inner path-iteration loop) -/

theorem runBatch_events_mem (o : Oracle) (g0 g1 l0 l1 : Nat) :
    ∀ (r en po : Nat) (e : Event),
      e ∈ (runBatch o g0 g1 l0 l1 r en po).events →
      ∃ k, k ∈ roundKernels ∧ e = Event.enq k (kernelGlobal0 k g0) g1 l0 l1 := by
  intro r
  induction r with
  | zero => intro en po e he; simp [runBatch] at he
  | succ r ih =>
    intro en po e he
    simp only [runBatch] at he
    by_cases hrd : (enqueueRound o.enqOk g0 g1 l0 l1 roundKernels en).ok = true
    · simp only [hrd, if_true] at he
      by_cases hc : o.cancel po = true
      · simp only [hc, if_true] at he
        exact enqueueRound_events_mem o.enqOk g0 g1 l0 l1 roundKernels en e he
      · simp only [hc, Bool.false_eq_true, if_false] at he
        simp only [List.mem_append] at he
        rcases he with he | he
        · exact enqueueRound_events_mem o.enqOk g0 g1 l0 l1 roundKernels en e he
        · exact ih _ _ e he
    · simp only [hrd, Bool.false_eq_true, if_false] at he
      exact enqueueRound_events_mem o.enqOk g0 g1 l0 l1 roundKernels en e he

theorem runBatch_idx (o : Oracle) (g0 g1 l0 l1 : Nat) :
    ∀ (r en po : Nat),
      en ≤ (runBatch o g0 g1 l0 l1 r en po).enqIdx ∧
      (runBatch o g0 g1 l0 l1 r en po).enqIdx =
        en + (runBatch o g0 g1 l0 l1 r en po).events.length ∧
      po ≤ (runBatch o g0 g1 l0 l1 r en po).pollIdx := by
  intro r
  induction r with
  | zero => intro en po; simp [runBatch]
  | succ r ih =>
    intro en po
    obtain ⟨he1, he2, he3⟩ := enqueueRound_idx o.enqOk g0 g1 l0 l1 roundKernels en
    simp only [runBatch]
    by_cases hrd : (enqueueRound o.enqOk g0 g1 l0 l1 roundKernels en).ok = true
    · simp only [hrd, if_true]
      by_cases hc : o.cancel po = true
      · simp only [hc, if_true]
        exact ⟨he1, he2, by omega⟩
      · simp only [hc, Bool.false_eq_true, if_false]
        obtain ⟨ih1, ih2, ih3⟩ :=
          ih (enqueueRound o.enqOk g0 g1 l0 l1 roundKernels en).enqIdx (po + 1)
        simp only [List.length_append]
        exact ⟨by omega, by omega, by omega⟩
    · simp only [hrd, Bool.false_eq_true, if_false]
      exact ⟨he1, he2, le_refl po⟩

theorem runBatch_ok_true_enq (o : Oracle) (g0 g1 l0 l1 : Nat) :
    ∀ (r en po : Nat),
      (runBatch o g0 g1 l0 l1 r en po).ok = true →
      ∀ i, en ≤ i → i < (runBatch o g0 g1 l0 l1 r en po).enqIdx →
        o.enqOk i = true := by
  intro r
  induction r with
  | zero =>
    intro en po hok i h1 h2
    simp [runBatch] at h2
    omega
  | succ r ih =>
    intro en po hok i h1 h2
    simp only [runBatch] at hok h2
    by_cases hrd : (enqueueRound o.enqOk g0 g1 l0 l1 roundKernels en).ok = true
    · simp only [hrd, if_true] at hok h2
      obtain ⟨hq1, hq2⟩ := enqueueRound_ok_true o.enqOk g0 g1 l0 l1 roundKernels en hrd
      by_cases hc : o.cancel po = true
      · simp only [hc, if_true] at hok h2
        exact hq2 i h1 (by omega)
      · simp only [hc, Bool.false_eq_true, if_false] at hok h2
        by_cases hin : i < (enqueueRound o.enqOk g0 g1 l0 l1 roundKernels en).enqIdx
        · exact hq2 i h1 (by omega)
        · exact ih _ (po + 1) hok i (by omega) h2
    · simp only [hrd, Bool.false_eq_true, if_false] at hok

theorem runBatch_ok_false (o : Oracle) (g0 g1 l0 l1 : Nat) :
    ∀ (r en po : Nat),
      (runBatch o g0 g1 l0 l1 r en po).ok = false →
      o.enqOk ((runBatch o g0 g1 l0 l1 r en po).enqIdx - 1) = false ∧
      (∀ i, en ≤ i → i < (runBatch o g0 g1 l0 l1 r en po).enqIdx - 1 →
        o.enqOk i = true) ∧
      en < (runBatch o g0 g1 l0 l1 r en po).enqIdx ∧
      (runBatch o g0 g1 l0 l1 r en po).canceled = false := by
  intro r
  induction r with
  | zero => intro en po hok; simp [runBatch] at hok
  | succ r ih =>
    intro en po hok
    simp only [runBatch] at hok ⊢
    by_cases hrd : (enqueueRound o.enqOk g0 g1 l0 l1 roundKernels en).ok = true
    · simp only [hrd, if_true] at hok ⊢
      obtain ⟨hq1, hq2⟩ := enqueueRound_ok_true o.enqOk g0 g1 l0 l1 roundKernels en hrd
      by_cases hc : o.cancel po = true
      · simp only [hc, if_true] at hok
        exact absurd hok (by simp)
      · simp only [hc, Bool.false_eq_true, if_false] at hok ⊢
        obtain ⟨ih1, ih2, ih3, ih4⟩ :=
          ih (enqueueRound o.enqOk g0 g1 l0 l1 roundKernels en).enqIdx (po + 1) hok
        refine ⟨ih1, ?_, by omega, ih4⟩
        intro i hi1 hi2
        by_cases hin : i < (enqueueRound o.enqOk g0 g1 l0 l1 roundKernels en).enqIdx
        · exact hq2 i hi1 (by omega)
        · exact ih2 i (by omega) hi2
    · simp only [hrd, Bool.false_eq_true, if_false]
      obtain ⟨hf1, hf2, hf3⟩ :=
        enqueueRound_ok_false o.enqOk g0 g1 l0 l1 roundKernels en
          (by simpa using hrd)
      exact ⟨hf1, hf2, hf3, trivial⟩

theorem runBatch_canceled (o : Oracle) (g0 g1 l0 l1 : Nat) :
    ∀ (r en po : Nat),
      (runBatch o g0 g1 l0 l1 r en po).canceled = true →
      (runBatch o g0 g1 l0 l1 r en po).ok = true ∧
      po < (runBatch o g0 g1 l0 l1 r en po).pollIdx ∧
      o.cancel ((runBatch o g0 g1 l0 l1 r en po).pollIdx - 1) = true := by
  intro r
  induction r with
  | zero => intro en po hc; simp [runBatch] at hc
  | succ r ih =>
    intro en po hc
    simp only [runBatch] at hc ⊢
    by_cases hrd : (enqueueRound o.enqOk g0 g1 l0 l1 roundKernels en).ok = true
    · simp only [hrd, if_true] at hc ⊢
      by_cases hcp : o.cancel po = true
      · simp only [hcp, if_true]
        exact ⟨trivial, by omega, by simpa using hcp⟩
      · simp only [hcp, Bool.false_eq_true, if_false] at hc ⊢
        obtain ⟨ih1, ih2, ih3⟩ :=
          ih (enqueueRound o.enqOk g0 g1 l0 l1 roundKernels en).enqIdx (po + 1) hc
        exact ⟨ih1, by omega, ih3⟩
    · simp only [hrd, Bool.false_eq_true, if_false] at hc

theorem runBatch_all_ok_no_cancel (o : Oracle) (g0 g1 l0 l1 : Nat)
    (hok : ∀ n, o.enqOk n = true) :
    ∀ (r en po : Nat), (∀ i, i < r → o.cancel (po + i) = false) →
      runBatch o g0 g1 l0 l1 r en po =
        ⟨(List.replicate r (roundEvents g0 g1 l0 l1)).flatten,
         en + 9 * r, po + r, false, true, r⟩ := by
  intro r
  induction r with
  | zero => intro en po _; simp [runBatch]
  | succ r ih =>
    intro en po hnc
    simp only [runBatch, enqueueRound_all_ok o.enqOk g0 g1 l0 l1 hok roundKernels en,
      roundKernels_map_eq_roundEvents]
    have hc0 : o.cancel po = false := by simpa using hnc 0 (by omega)
    have hlen : roundKernels.length = 9 := by simp [roundKernels]
    simp only [hlen, hc0, Bool.false_eq_true, if_false, if_true]
    have hrest := ih (en + 9) (po + 1) (fun i hi => by
      have := hnc (i + 1) (by omega)
      simpa [Nat.add_assoc, Nat.add_comm 1 i] using this)
    simp only [hrest]
    simp [List.replicate_succ, List.flatten_cons]
    omega

theorem runBatch_first_cancel (o : Oracle) (g0 g1 l0 l1 : Nat)
    (hok : ∀ n, o.enqOk n = true) :
    ∀ (j r en po : Nat), j < r → o.cancel (po + j) = true →
      (∀ i, i < j → o.cancel (po + i) = false) →
      runBatch o g0 g1 l0 l1 r en po =
        ⟨(List.replicate (j + 1) (roundEvents g0 g1 l0 l1)).flatten,
         en + 9 * (j + 1), po + (j + 1), true, true, j + 1⟩ := by
  intro j
  induction j with
  | zero =>
    intro r en po hjr hcj _
    obtain ⟨r', rfl⟩ : ∃ r', r = r' + 1 := ⟨r - 1, by omega⟩
    simp only [runBatch, enqueueRound_all_ok o.enqOk g0 g1 l0 l1 hok roundKernels en,
      roundKernels_map_eq_roundEvents]
    have hc0 : o.cancel po = true := by simpa using hcj
    have hlen : roundKernels.length = 9 := by simp [roundKernels]
    simp only [hlen, hc0, if_true]
    simp [List.replicate_succ]
  | succ j ih =>
    intro r en po hjr hcj hprev
    obtain ⟨r', rfl⟩ : ∃ r', r = r' + 1 := ⟨r - 1, by omega⟩
    simp only [runBatch, enqueueRound_all_ok o.enqOk g0 g1 l0 l1 hok roundKernels en,
      roundKernels_map_eq_roundEvents]
    have hc0 : o.cancel po = false := by simpa using hprev 0 (by omega)
    have hlen : roundKernels.length = 9 := by simp [roundKernels]
    simp only [hlen, hc0, Bool.false_eq_true, if_false, if_true]
    have hrest := ih r' (en + 9) (po + 1) (by omega)
      (by
        have := hcj
        simpa [Nat.add_assoc, Nat.add_comm 1 j] using this)
      (fun i hi => by
        have := hprev (i + 1) (by omega)
        simpa [Nat.add_assoc, Nat.add_comm 1 i] using this)
    simp only [hrest]
    simp [List.replicate_succ, List.flatten_cons]
    omega

/-! ## Lemmas about the outer while-loop -/

theorem outerLoop_canceled_mono (o : Oracle) (RI : Int) (INC g0 g1 l0 l1 : Nat) :
    ∀ (fuel pit nn hi : Nat) (c : Bool) (en po t : Nat) (lo : LoopOut),
      outerLoop o RI INC g0 g1 l0 l1 fuel pit nn hi c en po t = some lo →
      c = true → lo.canceled = true := by
  intro fuel
  induction fuel with
  | zero => intro pit nn hi c en po t lo heq _; simp [outerLoop] at heq
  | succ fuel ih =>
    intro pit nn hi c en po t lo heq hc
    subst hc
    simp only [outerLoop] at heq
    by_cases hbo : (runBatch o g0 g1 l0 l1 pit en po).ok = true
    · simp only [hbo, if_true] at heq
      by_cases hcp : o.cancel (runBatch o g0 g1 l0 l1 pit en po).pollIdx = true
      · simp only [hcp, if_true] at heq
        cases heq
        rfl
      · simp only [hcp, Bool.false_eq_true, if_false] at heq
        by_cases hact : scanActive (o.ray t) RI (g0 * g1) = true
        · simp only [hact, if_true] at heq
          obtain ⟨rest, hrest, hmap⟩ := Option.map_eq_some'.mp heq
          have := ih _ _ _ _ _ _ _ _ hrest (by simp)
          cases hmap
          simpa using this
        · simp only [hact, Bool.false_eq_true, if_false] at heq
          cases heq
          simp
    · simp only [hbo, Bool.false_eq_true, if_false] at heq
      cases heq
      simp

theorem outerLoop_inactive_exit (o : Oracle) (RI : Int) (INC g0 g1 l0 l1 : Nat) :
    ∀ (fuel pit nn hi : Nat) (c : Bool) (en po t : Nat) (lo : LoopOut),
      outerLoop o RI INC g0 g1 l0 l1 fuel pit nn hi c en po t = some lo →
      lo.ok = true → lo.canceled = false →
      t < lo.outerIters ∧
      scanActive (o.ray (lo.outerIters - 1)) RI (g0 * g1) = false := by
  intro fuel
  induction fuel with
  | zero => intro pit nn hi c en po t lo heq _ _; simp [outerLoop] at heq
  | succ fuel ih =>
    intro pit nn hi c en po t lo heq hok hnc
    simp only [outerLoop] at heq
    by_cases hbo : (runBatch o g0 g1 l0 l1 pit en po).ok = true
    · simp only [hbo, if_true] at heq
      by_cases hcp : o.cancel (runBatch o g0 g1 l0 l1 pit en po).pollIdx = true
      · simp only [hcp, if_true] at heq
        cases heq
        simp at hnc
      · simp only [hcp, Bool.false_eq_true, if_false] at heq
        by_cases hact : scanActive (o.ray t) RI (g0 * g1) = true
        · simp only [hact, if_true] at heq
          obtain ⟨rest, hrest, hmap⟩ := Option.map_eq_some'.mp heq
          cases hmap
          obtain ⟨ihl, ihs⟩ := ih _ _ _ _ _ _ _ _ hrest (by simpa using hok)
            (by simpa using hnc)
          dsimp only
          exact ⟨by omega, ihs⟩
        · simp only [hact, Bool.false_eq_true, if_false] at heq
          cases heq
          dsimp only
          refine ⟨by omega, ?_⟩
          simpa using hact
    · simp only [hbo, Bool.false_eq_true, if_false] at heq
      cases heq
      simp at hok

theorem outerLoop_numNext (o : Oracle) (RI : Int) (INC g0 g1 l0 l1 : Nat) :
    ∀ (fuel pit nn hi : Nat) (c : Bool) (en po t : Nat) (lo : LoopOut),
      outerLoop o RI INC g0 g1 l0 l1 fuel pit nn hi c en po t = some lo →
      lo.ok = true → nn < 4294967296 →
      hi ≤ lo.numHI ∧ lo.numNext = u32 (nn + (lo.numHI - hi) * INC) := by
  intro fuel
  induction fuel with
  | zero => intro pit nn hi c en po t lo heq _ _; simp [outerLoop] at heq
  | succ fuel ih =>
    intro pit nn hi c en po t lo heq hok hnn
    simp only [outerLoop] at heq
    by_cases hbo : (runBatch o g0 g1 l0 l1 pit en po).ok = true
    · simp only [hbo, if_true] at heq
      by_cases hcp : o.cancel (runBatch o g0 g1 l0 l1 pit en po).pollIdx = true
      · simp only [hcp, if_true] at heq
        cases heq
        by_cases hact : scanActive (o.ray t) RI (g0 * g1) = true
        · simp only [hact, if_true]
          refine ⟨by omega, ?_⟩
          have h1 : hi + 1 - hi = 1 := by omega
          simp [h1]
        · simp only [hact, Bool.false_eq_true, if_false]
          refine ⟨le_refl hi, ?_⟩
          simp [u32_eq_of_lt hnn]
      · simp only [hcp, Bool.false_eq_true, if_false] at heq
        by_cases hact : scanActive (o.ray t) RI (g0 * g1) = true
        · simp only [hact, if_true] at heq
          obtain ⟨rest, hrest, hmap⟩ := Option.map_eq_some'.mp heq
          cases hmap
          obtain ⟨ih1, ih2⟩ := ih _ _ _ _ _ _ _ _ hrest (by simpa using hok)
            (u32_lt (nn + INC))
          simp only []
          refine ⟨by omega, ?_⟩
          rw [ih2, u32_u32_add]
          congr 1
          obtain ⟨m, hm⟩ : ∃ m, rest.numHI - (hi + 1) = m := ⟨_, rfl⟩
          have hm2 : rest.numHI - hi = m + 1 := by omega
          rw [hm, hm2]
          ring
        · simp only [hact, Bool.false_eq_true, if_false] at heq
          cases heq
          refine ⟨le_refl hi, ?_⟩
          simp [u32_eq_of_lt hnn]
    · simp only [hbo, Bool.false_eq_true, if_false] at heq
      cases heq
      simp at hok

theorem countEnq_append (a b : List Event) :
    countEnq (a ++ b) = countEnq a + countEnq b := by
  simp [countEnq, List.filter_append]

theorem countEnq_copy (n : Nat) : countEnq [Event.copyRayState n] = 0 := by
  simp [countEnq, Event.isEnq]

theorem runBatch_countEnq (o : Oracle) (g0 g1 l0 l1 r en po : Nat) :
    countEnq (runBatch o g0 g1 l0 l1 r en po).events =
      (runBatch o g0 g1 l0 l1 r en po).events.length := by
  have h : ∀ e ∈ (runBatch o g0 g1 l0 l1 r en po).events, Event.isEnq e = true := by
    intro e he
    obtain ⟨k, _, rfl⟩ := runBatch_events_mem o g0 g1 l0 l1 r en po e he
    rfl
  simp [countEnq, List.filter_eq_self.mpr h]

theorem outerLoop_events_mem (o : Oracle) (RI : Int) (INC g0 g1 l0 l1 : Nat) :
    ∀ (fuel pit nn hi : Nat) (c : Bool) (en po t : Nat) (lo : LoopOut),
      outerLoop o RI INC g0 g1 l0 l1 fuel pit nn hi c en po t = some lo →
      ∀ e ∈ lo.events,
        (∃ k, k ∈ roundKernels ∧ e = Event.enq k (kernelGlobal0 k g0) g1 l0 l1) ∨
        e = Event.copyRayState (g0 * g1) := by
  intro fuel
  induction fuel with
  | zero => intro pit nn hi c en po t lo heq; simp [outerLoop] at heq
  | succ fuel ih =>
    intro pit nn hi c en po t lo heq e he
    simp only [outerLoop] at heq
    by_cases hbo : (runBatch o g0 g1 l0 l1 pit en po).ok = true
    · simp only [hbo, if_true] at heq
      by_cases hcp : o.cancel (runBatch o g0 g1 l0 l1 pit en po).pollIdx = true
      · simp only [hcp, if_true] at heq
        cases heq
        simp only [List.mem_append, List.mem_singleton] at he
        rcases he with he | he
        · exact Or.inl (runBatch_events_mem o g0 g1 l0 l1 pit en po e he)
        · exact Or.inr he
      · simp only [hcp, Bool.false_eq_true, if_false] at heq
        by_cases hact : scanActive (o.ray t) RI (g0 * g1) = true
        · simp only [hact, if_true] at heq
          obtain ⟨rest, hrest, hmap⟩ := Option.map_eq_some'.mp heq
          cases hmap
          simp only [List.mem_append, List.mem_singleton] at he
          rcases he with (he | he) | he
          · exact Or.inl (runBatch_events_mem o g0 g1 l0 l1 pit en po e he)
          · exact Or.inr he
          · exact ih _ _ _ _ _ _ _ _ hrest e he
        · simp only [hact, Bool.false_eq_true, if_false] at heq
          cases heq
          simp only [List.mem_append, List.mem_singleton] at he
          rcases he with he | he
          · exact Or.inl (runBatch_events_mem o g0 g1 l0 l1 pit en po e he)
          · exact Or.inr he
    · simp only [hbo, Bool.false_eq_true, if_false] at heq
      cases heq
      exact Or.inl (runBatch_events_mem o g0 g1 l0 l1 pit en po e he)

theorem outerLoop_enqIdx (o : Oracle) (RI : Int) (INC g0 g1 l0 l1 : Nat) :
    ∀ (fuel pit nn hi : Nat) (c : Bool) (en po t : Nat) (lo : LoopOut),
      outerLoop o RI INC g0 g1 l0 l1 fuel pit nn hi c en po t = some lo →
      en ≤ lo.enqIdx ∧ lo.enqIdx = en + countEnq lo.events := by
  intro fuel
  induction fuel with
  | zero => intro pit nn hi c en po t lo heq; simp [outerLoop] at heq
  | succ fuel ih =>
    intro pit nn hi c en po t lo heq
    obtain ⟨hb1, hb2, _⟩ := runBatch_idx o g0 g1 l0 l1 pit en po
    have hbc := runBatch_countEnq o g0 g1 l0 l1 pit en po
    simp only [outerLoop] at heq
    by_cases hbo : (runBatch o g0 g1 l0 l1 pit en po).ok = true
    · simp only [hbo, if_true] at heq
      by_cases hcp : o.cancel (runBatch o g0 g1 l0 l1 pit en po).pollIdx = true
      · simp only [hcp, if_true] at heq
        cases heq
        dsimp only
        rw [countEnq_append, countEnq_copy, hbc]
        omega
      · simp only [hcp, Bool.false_eq_true, if_false] at heq
        by_cases hact : scanActive (o.ray t) RI (g0 * g1) = true
        · simp only [hact, if_true] at heq
          obtain ⟨rest, hrest, hmap⟩ := Option.map_eq_some'.mp heq
          obtain ⟨ih1, ih2⟩ := ih _ _ _ _ _ _ _ _ hrest
          cases hmap
          dsimp only
          rw [countEnq_append, countEnq_append, countEnq_copy, hbc]
          omega
        · simp only [hact, Bool.false_eq_true, if_false] at heq
          cases heq
          dsimp only
          rw [countEnq_append, countEnq_copy, hbc]
          omega
    · simp only [hbo, Bool.false_eq_true, if_false] at heq
      cases heq
      dsimp only
      rw [hbc]
      omega

theorem outerLoop_ok_enq (o : Oracle) (RI : Int) (INC g0 g1 l0 l1 : Nat) :
    ∀ (fuel pit nn hi : Nat) (c : Bool) (en po t : Nat) (lo : LoopOut),
      outerLoop o RI INC g0 g1 l0 l1 fuel pit nn hi c en po t = some lo →
      lo.ok = true →
      ∀ i, en ≤ i → i < lo.enqIdx → o.enqOk i = true := by
  intro fuel
  induction fuel with
  | zero => intro pit nn hi c en po t lo heq; simp [outerLoop] at heq
  | succ fuel ih =>
    intro pit nn hi c en po t lo heq hok i hi1 hi2
    obtain ⟨hb1, hb2, _⟩ := runBatch_idx o g0 g1 l0 l1 pit en po
    simp only [outerLoop] at heq
    by_cases hbo : (runBatch o g0 g1 l0 l1 pit en po).ok = true
    · simp only [hbo, if_true] at heq
      by_cases hcp : o.cancel (runBatch o g0 g1 l0 l1 pit en po).pollIdx = true
      · simp only [hcp, if_true] at heq
        cases heq
        exact runBatch_ok_true_enq o g0 g1 l0 l1 pit en po hbo i hi1 hi2
      · simp only [hcp, Bool.false_eq_true, if_false] at heq
        by_cases hact : scanActive (o.ray t) RI (g0 * g1) = true
        · simp only [hact, if_true] at heq
          obtain ⟨rest, hrest, hmap⟩ := Option.map_eq_some'.mp heq
          obtain ⟨hr1, _⟩ := outerLoop_enqIdx o RI INC g0 g1 l0 l1 _ _ _ _ _ _ _ _ _ hrest
          cases hmap
          by_cases hin : i < (runBatch o g0 g1 l0 l1 pit en po).enqIdx
          · exact runBatch_ok_true_enq o g0 g1 l0 l1 pit en po hbo i hi1 hin
          · exact ih _ _ _ _ _ _ _ _ hrest (by simpa using hok) i (by omega)
              (by simpa using hi2)
        · simp only [hact, Bool.false_eq_true, if_false] at heq
          cases heq
          exact runBatch_ok_true_enq o g0 g1 l0 l1 pit en po hbo i hi1 hi2
    · simp only [hbo, Bool.false_eq_true, if_false] at heq
      cases heq
      simp at hok

theorem outerLoop_ok_false (o : Oracle) (RI : Int) (INC g0 g1 l0 l1 : Nat) :
    ∀ (fuel pit nn hi : Nat) (c : Bool) (en po t : Nat) (lo : LoopOut),
      outerLoop o RI INC g0 g1 l0 l1 fuel pit nn hi c en po t = some lo →
      lo.ok = false →
      o.enqOk (lo.enqIdx - 1) = false ∧
      (∀ i, en ≤ i → i < lo.enqIdx - 1 → o.enqOk i = true) ∧
      en < lo.enqIdx := by
  intro fuel
  induction fuel with
  | zero => intro pit nn hi c en po t lo heq; simp [outerLoop] at heq
  | succ fuel ih =>
    intro pit nn hi c en po t lo heq hok
    simp only [outerLoop] at heq
    by_cases hbo : (runBatch o g0 g1 l0 l1 pit en po).ok = true
    · simp only [hbo, if_true] at heq
      by_cases hcp : o.cancel (runBatch o g0 g1 l0 l1 pit en po).pollIdx = true
      · simp only [hcp, if_true] at heq
        cases heq
        simp at hok
      · simp only [hcp, Bool.false_eq_true, if_false] at heq
        by_cases hact : scanActive (o.ray t) RI (g0 * g1) = true
        · simp only [hact, if_true] at heq
          obtain ⟨rest, hrest, hmap⟩ := Option.map_eq_some'.mp heq
          obtain ⟨ih1, ih2, ih3⟩ := ih _ _ _ _ _ _ _ _ hrest
            (by cases hmap; simpa using hok)
          obtain ⟨hb1, hb2, _⟩ := runBatch_idx o g0 g1 l0 l1 pit en po
          cases hmap
          dsimp only
          refine ⟨ih1, ?_, by omega⟩
          intro i hi1 hi2
          by_cases hin : i < (runBatch o g0 g1 l0 l1 pit en po).enqIdx
          · exact runBatch_ok_true_enq o g0 g1 l0 l1 pit en po hbo i hi1 hin
          · exact ih2 i (by omega) hi2
        · simp only [hact, Bool.false_eq_true, if_false] at heq
          cases heq
          simp at hok
    · simp only [hbo, Bool.false_eq_true, if_false] at heq
      obtain ⟨hf1, hf2, hf3, _⟩ := runBatch_ok_false o g0 g1 l0 l1 pit en po
        (by simpa using hbo)
      cases heq
      exact ⟨hf1, hf2, hf3⟩

theorem outerLoop_canceled_ok (o : Oracle) (RI : Int) (INC g0 g1 l0 l1 : Nat)
    (hmono : ∀ i j, i ≤ j → o.cancel i = true → o.cancel j = true) :
    ∀ (fuel pit nn hi : Nat) (en po t : Nat) (lo : LoopOut),
      outerLoop o RI INC g0 g1 l0 l1 fuel pit nn hi false en po t = some lo →
      lo.canceled = true → lo.ok = true := by
  intro fuel
  induction fuel with
  | zero => intro pit nn hi en po t lo heq _; simp [outerLoop] at heq
  | succ fuel ih =>
    intro pit nn hi en po t lo heq hca
    simp only [outerLoop] at heq
    by_cases hbo : (runBatch o g0 g1 l0 l1 pit en po).ok = true
    · simp only [hbo, if_true] at heq
      by_cases hcp : o.cancel (runBatch o g0 g1 l0 l1 pit en po).pollIdx = true
      · simp only [hcp, if_true] at heq
        cases heq
        rfl
      · simp only [hcp, Bool.false_eq_true, if_false] at heq
        have hbc : (runBatch o g0 g1 l0 l1 pit en po).canceled = false := by
          by_contra hbc
          simp only [Bool.not_eq_false] at hbc
          obtain ⟨_, hlt, hctrue⟩ := runBatch_canceled o g0 g1 l0 l1 pit en po hbc
          have := hmono _ _ (by omega : (runBatch o g0 g1 l0 l1 pit en po).pollIdx - 1 ≤
            (runBatch o g0 g1 l0 l1 pit en po).pollIdx) hctrue
          simp [this] at hcp
        by_cases hact : scanActive (o.ray t) RI (g0 * g1) = true
        · simp only [hact, if_true] at heq
          obtain ⟨rest, hrest, hmap⟩ := Option.map_eq_some'.mp heq
          rw [hbc] at hrest
          have := ih _ _ _ _ _ _ _ (by simpa using hrest)
            (by cases hmap; simpa using hca)
          cases hmap
          simpa using this
        · simp only [hact, Bool.false_eq_true, if_false] at heq
          cases heq
          rfl
    · simp only [hbo, Bool.false_eq_true, if_false] at heq
      obtain ⟨_, _, _, hbc⟩ := runBatch_ok_false o g0 g1 l0 l1 pit en po
        (by simpa using hbo)
      cases heq
      dsimp only at hca
      rw [hbc] at hca
      simp at hca

/-! ## Shape lemmas for a whole `path_trace` call -/

theorem allocEvents_classify (cfg : SKConfig) (st : DeviceSplitKernel) (mt : Int2)
    (p : Nat) : ∀ e ∈ allocEvents cfg st mt p,
      e.isAlloc = true ∧ e.isEnq = false ∧ e.isFree = false ∧ e.isSumEnq = false := by
  intro e he
  simp only [allocEvents, List.mem_append, List.mem_cons, List.mem_singleton] at he
  rcases he with he | he
  · by_cases hws : cfg.workStealing = true
    · simp only [hws, if_true, List.mem_singleton] at he
      subst he
      exact ⟨rfl, rfl, rfl, rfl⟩
    · simp only [hws, Bool.false_eq_true, if_false, List.not_mem_nil] at he
  · rcases he with rfl | rfl | rfl | rfl | rfl | he
    · exact ⟨rfl, rfl, rfl, rfl⟩
    · exact ⟨rfl, rfl, rfl, rfl⟩
    · exact ⟨rfl, rfl, rfl, rfl⟩
    · exact ⟨rfl, rfl, rfl, rfl⟩
    · exact ⟨rfl, rfl, rfl, rfl⟩
    · simp at he

theorem allocEvents_queue_index_mem (cfg : SKConfig) (st : DeviceSplitKernel)
    (mt : Int2) (p : Nat) :
    Event.allocQueueIndex (cfg.NUM_QUEUES * 4) ∈ allocEvents cfg st mt p := by
  simp [allocEvents]

theorem countEnq_allocEvents (cfg : SKConfig) (st : DeviceSplitKernel) (mt : Int2)
    (p : Nat) : countEnq (allocEvents cfg st mt p) = 0 := by
  have h : ∀ e ∈ allocEvents cfg st mt p, ¬ (Event.isEnq e = true) := by
    intro e he
    have := (allocEvents_classify cfg st mt p e he).2.1
    simp [this]
  simp [countEnq, List.filter_eq_nil_iff.mpr h]

theorem pathTrace_success_elim (cfg : SKConfig) (st : DeviceSplitKernel) (o : Oracle)
    (rtile : RenderTile) (mt : Int2) (p fuel : Nat) (r : PTResult)
    (heq : pathTrace cfg st o rtile mt p fuel = some r)
    (hs : r.success = true) :
    o.dataInitOk = true ∧
    ∃ lo : LoopOut,
      outerLoop o cfg.RAY_INACTIVE cfg.INC (globalSize0 cfg rtile mt)
        (globalSize1 cfg rtile) cfg.LX cfg.LY fuel
        st.path_iteration_times st.path_iteration_times 0 false 0 0 0 = some lo ∧
      lo.ok = true ∧
      r.canceled = lo.canceled ∧
      r.numHI = lo.numHI ∧
      r.numNext = lo.numNext ∧
      r.outerIters = lo.outerIters ∧
      r.st = { st with
               path_iteration_times := budgetUpdate cfg.INC lo.numHI lo.numNext
               first_tile := false } ∧
      (lo.canceled = true →
        r.events = (if st.first_tile then allocEvents cfg st mt p else []) ++
          [Event.dataInit (globalSize0 cfg rtile mt) (globalSize1 cfg rtile)
            cfg.LX cfg.LY] ++ lo.events) ∧
      (lo.canceled = false →
        o.enqOk lo.enqIdx = true ∧
        r.events = (if st.first_tile then allocEvents cfg st mt p else []) ++
          [Event.dataInit (globalSize0 cfg rtile mt) (globalSize1 cfg rtile)
            cfg.LX cfg.LY] ++ lo.events ++
          [Event.enq .sum_all_radiance (roundUp rtile.w 16) (roundUp rtile.h 16)
            16 16]) := by
  by_cases hd : o.dataInitOk = true
  · refine ⟨hd, ?_⟩
    simp only [pathTrace, hd, if_true] at heq
    cases hres : outerLoop o cfg.RAY_INACTIVE cfg.INC (globalSize0 cfg rtile mt)
        (globalSize1 cfg rtile) cfg.LX cfg.LY fuel
        st.path_iteration_times st.path_iteration_times 0 false 0 0 0 with
    | none => rw [hres] at heq; simp at heq
    | some lo =>
      rw [hres] at heq
      dsimp only at heq
      by_cases hok : lo.ok = true
      · simp only [hok, if_true] at heq
        by_cases hca : lo.canceled = true
        · simp only [hca, if_true] at heq
          cases heq
          refine ⟨lo, rfl, hok, hca.symm, rfl, rfl, rfl, rfl, fun _ => rfl, ?_⟩
          intro hcf
          rw [hca] at hcf
          cases hcf
        · simp only [hca, Bool.false_eq_true, if_false] at heq
          by_cases hse : o.enqOk lo.enqIdx = true
          · simp only [hse, if_true] at heq
            cases heq
            refine ⟨lo, rfl, hok, ?_, rfl, rfl, rfl, rfl, ?_, ?_⟩
            · dsimp only
              simp only [Bool.not_eq_true] at hca
              exact hca.symm
            · intro hct
              rw [hct] at hca
              simp at hca
            · intro _
              exact ⟨hse, rfl⟩
          · simp only [hse, Bool.false_eq_true, if_false] at heq
            cases heq
            simp at hs
      · simp only [hok, Bool.false_eq_true, if_false] at heq
        cases heq
        simp at hs
  · simp only [Bool.not_eq_true] at hd
    simp only [pathTrace, hd, Bool.false_eq_true, if_false] at heq
    cases heq
    simp at hs

theorem pathTrace_failure_elim (cfg : SKConfig) (st : DeviceSplitKernel) (o : Oracle)
    (rtile : RenderTile) (mt : Int2) (p fuel : Nat) (r : PTResult)
    (heq : pathTrace cfg st o rtile mt p fuel = some r)
    (hs : r.success = false) :
    (o.dataInitOk = false ∧
      r.events = (if st.first_tile then allocEvents cfg st mt p else []) ++
        [Event.dataInit (globalSize0 cfg rtile mt) (globalSize1 cfg rtile)
          cfg.LX cfg.LY] ∧
      r.st = st ∧ r.canceled = false) ∨
    (o.dataInitOk = true ∧
      ∃ lo : LoopOut,
        outerLoop o cfg.RAY_INACTIVE cfg.INC (globalSize0 cfg rtile mt)
          (globalSize1 cfg rtile) cfg.LX cfg.LY fuel
          st.path_iteration_times st.path_iteration_times 0 false 0 0 0 = some lo ∧
        r.st = { st with path_iteration_times := lo.pit } ∧
        r.canceled = lo.canceled ∧
        ((lo.ok = false ∧
          r.events = (if st.first_tile then allocEvents cfg st mt p else []) ++
            [Event.dataInit (globalSize0 cfg rtile mt) (globalSize1 cfg rtile)
              cfg.LX cfg.LY] ++ lo.events) ∨
         (lo.ok = true ∧ lo.canceled = false ∧ o.enqOk lo.enqIdx = false ∧
          r.events = (if st.first_tile then allocEvents cfg st mt p else []) ++
            [Event.dataInit (globalSize0 cfg rtile mt) (globalSize1 cfg rtile)
              cfg.LX cfg.LY] ++ lo.events ++
            [Event.enq .sum_all_radiance (roundUp rtile.w 16) (roundUp rtile.h 16)
              16 16]))) := by
  by_cases hd : o.dataInitOk = true
  · refine Or.inr ⟨hd, ?_⟩
    simp only [pathTrace, hd, if_true] at heq
    cases hres : outerLoop o cfg.RAY_INACTIVE cfg.INC (globalSize0 cfg rtile mt)
        (globalSize1 cfg rtile) cfg.LX cfg.LY fuel
        st.path_iteration_times st.path_iteration_times 0 false 0 0 0 with
    | none => rw [hres] at heq; simp at heq
    | some lo =>
      rw [hres] at heq
      dsimp only at heq
      by_cases hok : lo.ok = true
      · simp only [hok, if_true] at heq
        by_cases hca : lo.canceled = true
        · simp only [hca, if_true] at heq
          cases heq
          simp at hs
        · simp only [hca, Bool.false_eq_true, if_false] at heq
          by_cases hse : o.enqOk lo.enqIdx = true
          · simp only [hse, if_true] at heq
            cases heq
            simp at hs
          · simp only [hse, Bool.false_eq_true, if_false] at heq
            cases heq
            have hcaf : lo.canceled = false := by simpa using hca
            exact ⟨lo, rfl, rfl, hcaf.symm, Or.inr ⟨hok, hcaf, by simpa using hse, rfl⟩⟩
      · simp only [hok, Bool.false_eq_true, if_false] at heq
        cases heq
        exact ⟨lo, rfl, rfl, rfl, Or.inl ⟨by simpa using hok, rfl⟩⟩
  · simp only [Bool.not_eq_true] at hd
    simp only [pathTrace, hd, Bool.false_eq_true, if_false] at heq
    cases heq
    exact Or.inl ⟨hd, rfl, rfl, rfl⟩

theorem loadChain_eq_true_iff (avail : SKern → Bool) :
    ∀ ks : List SKern, loadChain avail ks = true ↔ ∀ k ∈ ks, avail k = true := by
  intro ks
  induction ks with
  | nil => simp [loadChain]
  | cons k ks ih =>
    simp only [loadChain]
    by_cases h : avail k = true
    · simp [h, ih]
    · simp [h]

theorem pathTrace_first_tile (cfg : SKConfig) (st : DeviceSplitKernel) (o : Oracle)
    (rtile : RenderTile) (mt : Int2) (p fuel : Nat) (r : PTResult)
    (heq : pathTrace cfg st o rtile mt p fuel = some r) :
    (r.success = true → r.st.first_tile = false) ∧
    (r.success = false → r.st.first_tile = st.first_tile) := by
  constructor
  · intro hs
    obtain ⟨-, lo, -, -, -, -, -, -, hst, -, -⟩ :=
      pathTrace_success_elim cfg st o rtile mt p fuel r heq hs
    rw [hst]
  · intro hs
    rcases pathTrace_failure_elim cfg st o rtile mt p fuel r heq hs with
      ⟨-, -, hst, -⟩ | ⟨-, lo, -, hst, -, -⟩
    · rw [hst]
    · rw [hst]

theorem pathTrace_events_classify (cfg : SKConfig) (st : DeviceSplitKernel)
    (o : Oracle) (rtile : RenderTile) (mt : Int2) (p fuel : Nat) (r : PTResult)
    (heq : pathTrace cfg st o rtile mt p fuel = some r) :
    ∀ e ∈ r.events,
      (e ∈ allocEvents cfg st mt p ∧ st.first_tile = true) ∨
      e = Event.dataInit (globalSize0 cfg rtile mt) (globalSize1 cfg rtile)
        cfg.LX cfg.LY ∨
      (∃ k, k ∈ roundKernels ∧
        e = Event.enq k (kernelGlobal0 k (globalSize0 cfg rtile mt))
          (globalSize1 cfg rtile) cfg.LX cfg.LY) ∨
      e = Event.copyRayState (globalSize0 cfg rtile mt * globalSize1 cfg rtile) ∨
      e = Event.enq .sum_all_radiance (roundUp rtile.w 16) (roundUp rtile.h 16)
        16 16 := by
  intro e he
  have hA : ∀ e', e' ∈ (if st.first_tile then allocEvents cfg st mt p else []) →
      e' ∈ allocEvents cfg st mt p ∧ st.first_tile = true := by
    intro e' he'
    by_cases hft : st.first_tile = true
    · rw [hft] at he'
      exact ⟨by simpa using he', hft⟩
    · simp only [Bool.not_eq_true] at hft
      rw [hft] at he'
      simp at he'
  have hL : ∀ (lo : LoopOut),
      outerLoop o cfg.RAY_INACTIVE cfg.INC (globalSize0 cfg rtile mt)
        (globalSize1 cfg rtile) cfg.LX cfg.LY fuel
        st.path_iteration_times st.path_iteration_times 0 false 0 0 0 = some lo →
      ∀ e', e' ∈ lo.events →
      (∃ k, k ∈ roundKernels ∧
        e' = Event.enq k (kernelGlobal0 k (globalSize0 cfg rtile mt))
          (globalSize1 cfg rtile) cfg.LX cfg.LY) ∨
      e' = Event.copyRayState (globalSize0 cfg rtile mt * globalSize1 cfg rtile) := by
    intro lo hlo e' he'
    exact outerLoop_events_mem o cfg.RAY_INACTIVE cfg.INC _ _ cfg.LX cfg.LY
      _ _ _ _ _ _ _ _ _ hlo e' he'
  have step3 : ∀ (lo : LoopOut),
      outerLoop o cfg.RAY_INACTIVE cfg.INC (globalSize0 cfg rtile mt)
        (globalSize1 cfg rtile) cfg.LX cfg.LY fuel
        st.path_iteration_times st.path_iteration_times 0 false 0 0 0 = some lo →
      e ∈ (if st.first_tile then allocEvents cfg st mt p else []) ++
        [Event.dataInit (globalSize0 cfg rtile mt) (globalSize1 cfg rtile)
          cfg.LX cfg.LY] ++ lo.events →
      (e ∈ allocEvents cfg st mt p ∧ st.first_tile = true) ∨
      e = Event.dataInit (globalSize0 cfg rtile mt) (globalSize1 cfg rtile)
        cfg.LX cfg.LY ∨
      (∃ k, k ∈ roundKernels ∧
        e = Event.enq k (kernelGlobal0 k (globalSize0 cfg rtile mt))
          (globalSize1 cfg rtile) cfg.LX cfg.LY) ∨
      e = Event.copyRayState (globalSize0 cfg rtile mt * globalSize1 cfg rtile) ∨
      e = Event.enq .sum_all_radiance (roundUp rtile.w 16) (roundUp rtile.h 16)
        16 16 := by
    intro lo hlo hin
    rcases List.mem_append.mp hin with h1 | h2
    · rcases List.mem_append.mp h1 with ha | hd
      · exact Or.inl (hA e ha)
      · exact Or.inr (Or.inl (List.mem_singleton.mp hd))
    · rcases hL lo hlo e h2 with hk | hc
      · exact Or.inr (Or.inr (Or.inl hk))
      · exact Or.inr (Or.inr (Or.inr (Or.inl hc)))
  by_cases hs : r.success = true
  · obtain ⟨-, lo, hlo, -, -, -, -, -, -, hevc, hevn⟩ :=
      pathTrace_success_elim cfg st o rtile mt p fuel r heq hs
    by_cases hca : lo.canceled = true
    · rw [hevc hca] at he
      exact step3 lo hlo he
    · obtain ⟨-, hev⟩ := hevn (by simpa using hca)
      rw [hev] at he
      rcases List.mem_append.mp he with h1 | h2
      · exact step3 lo hlo h1
      · exact Or.inr (Or.inr (Or.inr (Or.inr (List.mem_singleton.mp h2))))
  · rcases pathTrace_failure_elim cfg st o rtile mt p fuel r heq
        (by simpa using hs) with ⟨-, hev, -, -⟩ | ⟨-, lo, hlo, -, -, hcase⟩
    · rw [hev] at he
      rcases List.mem_append.mp he with ha | hd
      · exact Or.inl (hA e ha)
      · exact Or.inr (Or.inl (List.mem_singleton.mp hd))
    · rcases hcase with ⟨-, hev⟩ | ⟨-, -, -, hev⟩
      · rw [hev] at he
        exact step3 lo hlo he
      · rw [hev] at he
        rcases List.mem_append.mp he with h1 | h2
        · exact step3 lo hlo h1
        · exact Or.inr (Or.inr (Or.inr (Or.inr (List.mem_singleton.mp h2))))

theorem pathTrace_no_alloc_of_not_first (cfg : SKConfig) (st : DeviceSplitKernel)
    (o : Oracle) (rtile : RenderTile) (mt : Int2) (p fuel : Nat) (r : PTResult)
    (hft : st.first_tile = false)
    (heq : pathTrace cfg st o rtile mt p fuel = some r) :
    ∀ e ∈ r.events, e.isAlloc = false := by
  intro e he
  rcases pathTrace_events_classify cfg st o rtile mt p fuel r heq e he with
    ⟨-, hft'⟩ | rfl | ⟨k, -, rfl⟩ | rfl | rfl
  · rw [hft] at hft'; cases hft'
  · rfl
  · rfl
  · rfl
  · rfl

theorem pathTrace_no_free (cfg : SKConfig) (st : DeviceSplitKernel)
    (o : Oracle) (rtile : RenderTile) (mt : Int2) (p fuel : Nat) (r : PTResult)
    (heq : pathTrace cfg st o rtile mt p fuel = some r) :
    ∀ e ∈ r.events, e.isFree = false := by
  intro e he
  rcases pathTrace_events_classify cfg st o rtile mt p fuel r heq e he with
    ⟨ha, -⟩ | rfl | ⟨k, -, rfl⟩ | rfl | rfl
  · exact (allocEvents_classify cfg st mt p e ha).2.2.1
  · rfl
  · rfl
  · rfl
  · rfl

theorem pathTrace_alloc_of_first (cfg : SKConfig) (st : DeviceSplitKernel)
    (o : Oracle) (rtile : RenderTile) (mt : Int2) (p fuel : Nat) (r : PTResult)
    (hft : st.first_tile = true)
    (heq : pathTrace cfg st o rtile mt p fuel = some r) :
    ∃ e ∈ r.events, e.isAlloc = true := by
  have hmem : Event.allocQueueIndex (cfg.NUM_QUEUES * 4) ∈ allocEvents cfg st mt p :=
    allocEvents_queue_index_mem cfg st mt p
  have hmem' : Event.allocQueueIndex (cfg.NUM_QUEUES * 4) ∈
      (if st.first_tile then allocEvents cfg st mt p else []) ++
        [Event.dataInit (globalSize0 cfg rtile mt) (globalSize1 cfg rtile)
          cfg.LX cfg.LY] := by
    rw [hft]
    exact List.mem_append.mpr (Or.inl (by simpa using hmem))
  refine ⟨Event.allocQueueIndex (cfg.NUM_QUEUES * 4), ?_, rfl⟩
  by_cases hs : r.success = true
  · obtain ⟨-, lo, hlo, -, -, -, -, -, -, hevc, hevn⟩ :=
      pathTrace_success_elim cfg st o rtile mt p fuel r heq hs
    by_cases hca : lo.canceled = true
    · rw [hevc hca]
      exact List.mem_append.mpr (Or.inl hmem')
    · obtain ⟨-, hev⟩ := hevn (by simpa using hca)
      rw [hev]
      exact List.mem_append.mpr (Or.inl (List.mem_append.mpr (Or.inl hmem')))
  · rcases pathTrace_failure_elim cfg st o rtile mt p fuel r heq
        (by simpa using hs) with ⟨-, hev, -, -⟩ | ⟨-, lo, hlo, -, -, hcase⟩
    · rw [hev]
      exact hmem'
    · rcases hcase with ⟨-, hev⟩ | ⟨-, -, -, hev⟩
      · rw [hev]
        exact List.mem_append.mpr (Or.inl hmem')
      · rw [hev]
        exact List.mem_append.mpr (Or.inl (List.mem_append.mpr (Or.inl hmem')))

theorem runCalls_no_alloc (cfg : SKConfig) :
    ∀ (cs : List CallInput) (st : DeviceSplitKernel) (rs : List PTResult)
      (st' : DeviceSplitKernel),
      st.first_tile = false → runCalls cfg st cs = some (rs, st') →
      ∀ r ∈ rs, ∀ e ∈ r.events, e.isAlloc = false := by
  intro cs
  induction cs with
  | nil =>
    intro st rs st' hft heq r hr
    simp only [runCalls] at heq
    cases heq
    simp at hr
  | cons c cs ih =>
    intro st rs st' hft heq r hr
    simp only [runCalls] at heq
    cases hp : pathTrace cfg st c.o c.rtile c.mt c.per_thread_output_buffer_size c.fuel with
    | none => rw [hp] at heq; simp at heq
    | some r0 =>
      rw [hp] at heq
      dsimp only at heq
      cases hrc : runCalls cfg r0.st cs with
      | none => rw [hrc] at heq; simp at heq
      | some pr =>
        obtain ⟨rs0, st0⟩ := pr
        rw [hrc] at heq
        dsimp only at heq
        have hft0 : r0.st.first_tile = false := by
          obtain ⟨h1, h2⟩ := pathTrace_first_tile cfg st c.o c.rtile c.mt
            c.per_thread_output_buffer_size c.fuel r0 hp
          by_cases hsx : r0.success = true
          · exact h1 hsx
          · rw [h2 (by simpa using hsx)]; exact hft
        cases heq
        simp only [List.mem_cons] at hr
        rcases hr with rfl | hr
        · exact pathTrace_no_alloc_of_not_first cfg st c.o c.rtile c.mt
            c.per_thread_output_buffer_size c.fuel r hft hp
        · exact ih r0.st rs0 _ hft0 hrc r hr

/-! ## Claim theorems -/

/-- Claim C6: `load_kernels` is all-or-nothing: it returns `true` exactly
when every one of the ten named pipeline stages resolves to a non-null
function; on success it records the feature set's maximum shading-closure
count in `current_max_closure`, and on failure it leaves the scheduler
state unchanged (no partial pipeline is usable). -/
theorem claim6_load_kernels_all_or_nothing (avail : SKern → Bool)
    (requested_features : DeviceRequestedFeatures) (st : DeviceSplitKernel) :
    ((load_kernels avail requested_features st).1 = true ↔
      pipelineKernels.all avail = true) ∧
    ((load_kernels avail requested_features st).1 = true →
      (load_kernels avail requested_features st).2.current_max_closure =
        requested_features.max_closure) ∧
    ((load_kernels avail requested_features st).1 = false →
      (load_kernels avail requested_features st).2 = st) := by
  have hchain : loadChain avail pipelineKernels = true ↔
      pipelineKernels.all avail = true := by
    rw [loadChain_eq_true_iff]
    exact (List.all_eq_true).symm
  by_cases h : loadChain avail pipelineKernels = true
  · simp only [load_kernels, h, if_true]
    refine ⟨?_, fun _ => trivial, fun hf => ?_⟩
    · simpa using hchain.mp h
    · simp at hf
  · have hb : loadChain avail pipelineKernels = false := by simpa using h
    simp only [load_kernels, hb, Bool.false_eq_true, if_false]
    refine ⟨?_, fun ht => ?_, fun _ => trivial⟩
    · constructor
      · intro hf; simp at hf
      · intro hall; exact absurd (hchain.mpr hall) h
    · simp at ht

/-- Claim C6 witness: with every stage available the call succeeds and
records the closure count; with one stage missing it fails and leaves the
state unchanged. -/
theorem claim6_witness :
    (load_kernels availW6 featW6 stW6).1 = true ∧
    (load_kernels availW6 featW6 stW6).2.current_max_closure = featW6.max_closure ∧
    (load_kernels availW6f featW6 stW6).2 = stW6 :=
  ⟨(claim6_load_kernels_all_or_nothing availW6 featW6 stW6).1.mpr (by decide),
   (claim6_load_kernels_all_or_nothing availW6 featW6 stW6).2.1 (by decide),
   (claim6_load_kernels_all_or_nothing availW6f featW6 stW6).2.2 (by decide)⟩

/-- Claim C9: with all stage enqueues succeeding, every round of a batch
enqueues exactly the nine pipeline stages in the fixed order over the
dispatch grid, the shadow-blocked stage on a grid twice as wide; with no
cancellation all `r` rounds are issued, and if cancellation is first
observed at the poll after round `j`, exactly rounds `0..j` are issued
and no further rounds of the batch follow. -/
theorem claim9_round_order_and_cancellation (o : Oracle)
    (g0 g1 l0 l1 r en po : Nat) (hok : ∀ n, o.enqOk n = true) :
    ((∀ i, i < r → o.cancel (po + i) = false) →
      runBatch o g0 g1 l0 l1 r en po =
        ⟨(List.replicate r (roundEvents g0 g1 l0 l1)).flatten,
         en + 9 * r, po + r, false, true, r⟩) ∧
    (∀ j, j < r → o.cancel (po + j) = true →
      (∀ i, i < j → o.cancel (po + i) = false) →
      runBatch o g0 g1 l0 l1 r en po =
        ⟨(List.replicate (j + 1) (roundEvents g0 g1 l0 l1)).flatten,
         en + 9 * (j + 1), po + (j + 1), true, true, j + 1⟩) :=
  ⟨fun hnc => runBatch_all_ok_no_cancel o g0 g1 l0 l1 hok r en po hnc,
   fun j hj hcj hprev => runBatch_first_cancel o g0 g1 l0 l1 hok j r en po hj hcj hprev⟩

/-- Claim C9 witness: a two-round batch with no cancellation issues exactly
two copies of the nine-stage round block. -/
theorem claim9_witness :
    runBatch oQuiet 2 1 1 1 2 0 0 =
      ⟨(List.replicate 2 (roundEvents 2 1 1 1)).flatten, 18, 2, false, true, 2⟩ :=
  (claim9_round_order_and_cancellation oQuiet 2 1 1 1 2 0 0 (fun _ => rfl)).1
    (fun _ _ => rfl)

/-- Claim C2 counterexample: as stated — quantified over all tiles and all
maximum feasible sizes that are multiples of the local shape, with no
assumption that the tile fits inside the maximum feasible size — the
dispatch-area bound fails: in the work-stealing strategy a 128x1 tile
against a 64x1 maximum feasible size yields dispatch area 128 > 64. -/
theorem claim2_counterexample :
    cfgC2.LX ∣ tC2.w ∧ cfgC2.LY ∣ tC2.h ∧ cfgC2.LX ∣ mtC2.x ∧ cfgC2.LY ∣ mtC2.y ∧
    ¬ (globalSize0 cfgC2 tC2 mtC2 * globalSize1 cfgC2 tC2 ≤ mtC2.x * mtC2.y) := by
  decide

theorem nps_le_npsRaw (mx my w h ns LY : Nat) :
    num_parallel_samplesFA mx my w h ns LY ≤ npsRaw mx my w h ns LY := by
  simp only [num_parallel_samplesFA]
  by_cases h64 : 64 ≤ npsRaw mx my w h ns LY
  · rw [if_pos h64]
    exact Nat.div_mul_le_self _ 64
  · rw [if_neg h64]

/-- Claim C2 (amended): for every tile whose dimensions are multiples of
the local dispatch shape AND that fits inside the maximum feasible tile
size (itself a multiple of the local shape), the dispatch grid satisfies
`globalSize[0] * globalSize[1] ≤ max.x * max.y`, in both the work-stealing
and the fixed-allocation strategy. -/
theorem claim2_dispatch_area_bound (cfg : SKConfig) (rtile : RenderTile)
    (mt : Int2)
    (hLX : 0 < cfg.LX) (hLY : 0 < cfg.LY)
    (hw : 0 < rtile.w) (hh : 0 < rtile.h)
    (hwd : cfg.LX ∣ rtile.w) (hhd : cfg.LY ∣ rtile.h)
    (hmxd : cfg.LX ∣ mt.x) (hmyd : cfg.LY ∣ mt.y)
    (hwle : rtile.w ≤ mt.x) (hhle : rtile.h ≤ mt.y) :
    globalSize0 cfg rtile mt * globalSize1 cfg rtile ≤ mt.x * mt.y := by
  by_cases hws : cfg.workStealing = true
  · simp only [globalSize0, globalSize1, hws, if_true]
    rw [roundUp_eq_self hLX hwd hw, roundUp_eq_self hLY hhd hh]
    exact Nat.mul_le_mul hwle hhle
  · simp only [globalSize0, globalSize1, hws, Bool.false_eq_true, if_false]
    have h1 : u32 (rtile.w *
        num_parallel_samplesFA mt.x mt.y rtile.w rtile.h rtile.num_samples cfg.LY) ≤
        rtile.w *
        num_parallel_samplesFA mt.x mt.y rtile.w rtile.h rtile.num_samples cfg.LY :=
      u32_le _
    have h2 : num_parallel_samplesFA mt.x mt.y rtile.w rtile.h rtile.num_samples
        cfg.LY ≤ numTileColumnsPossible mt.x mt.y rtile.h cfg.LY / rtile.w :=
      le_trans (nps_le_npsRaw mt.x mt.y rtile.w rtile.h rtile.num_samples cfg.LY)
        (Nat.min_le_left _ _)
    calc u32 (rtile.w *
          num_parallel_samplesFA mt.x mt.y rtile.w rtile.h rtile.num_samples cfg.LY) *
          roundUp rtile.h cfg.LY
        ≤ rtile.w *
          num_parallel_samplesFA mt.x mt.y rtile.w rtile.h rtile.num_samples cfg.LY *
          roundUp rtile.h cfg.LY := Nat.mul_le_mul_right _ h1
      _ ≤ rtile.w * (numTileColumnsPossible mt.x mt.y rtile.h cfg.LY / rtile.w) *
          roundUp rtile.h cfg.LY :=
          Nat.mul_le_mul_right _ (Nat.mul_le_mul_left _ h2)
      _ ≤ numTileColumnsPossible mt.x mt.y rtile.h cfg.LY * roundUp rtile.h cfg.LY := by
          refine Nat.mul_le_mul_right _ ?_
          rw [Nat.mul_comm]
          exact Nat.div_mul_le_self _ _
      _ ≤ numThreadsFA mt.x mt.y := by
          simp only [numTileColumnsPossible]
          exact Nat.div_mul_le_self _ _
      _ ≤ mt.x * mt.y := u32_le _

/-- Claim C2 witness: the amended bound at a concrete in-range instance. -/
theorem claim2_witness :
    globalSize0 cfgW tHW mtHW * globalSize1 cfgW tHW ≤ mtHW.x * mtHW.y :=
  claim2_dispatch_area_bound cfgW tHW mtHW (by decide) (by decide) (by decide)
    (by decide) (by decide) (by decide) (by decide) (by decide) (by decide)
    (by decide)

/-- Claim C3: in the fixed-allocation strategy, under the sizing
preconditions (positive tile dimensions, a tile fitting inside the
maximum feasible size, a maximum feasible height that is a multiple of
the local height, at least one requested sample, and a lane budget below
`2^32`), `num_parallel_samples` never exceeds the requested sample count,
equals the raw value `min(laneBudget / roundedHeight / width, samples)`
when that raw value is below 64, is a multiple of 64 when the raw value
is at least 64, and is non-zero. -/
theorem claim3_num_parallel_samples (mx my w h ns LY : Nat)
    (hLY : 0 < LY) (hmyd : LY ∣ my) (hw : 0 < w) (hh : 0 < h)
    (hwle : w ≤ mx) (hhle : h ≤ my) (hns : 0 < ns)
    (hsmall : mx * my < 4294967296) :
    num_parallel_samplesFA mx my w h ns LY ≤ ns ∧
    (npsRaw mx my w h ns LY < 64 →
      num_parallel_samplesFA mx my w h ns LY = npsRaw mx my w h ns LY) ∧
    (64 ≤ npsRaw mx my w h ns LY →
      64 ∣ num_parallel_samplesFA mx my w h ns LY) ∧
    num_parallel_samplesFA mx my w h ns LY ≠ 0 := by
  have hg1pos : 0 < roundUp h LY := roundUp_pos hLY
  have hg1le : roundUp h LY ≤ my := roundUp_le hLY hh hhle hmyd
  have hthreads : numThreadsFA mx my = mx * my := u32_eq_of_lt hsmall
  have hntc : mx ≤ numTileColumnsPossible mx my h LY := by
    simp only [numTileColumnsPossible, hthreads]
    rw [Nat.le_div_iff_mul_le hg1pos]
    exact Nat.mul_le_mul_left mx hg1le
  have hdiv1 : 1 ≤ numTileColumnsPossible mx my h LY / w := by
    rw [Nat.le_div_iff_mul_le hw]
    simpa using le_trans hwle hntc
  have hraw : 1 ≤ npsRaw mx my w h ns LY := le_min hdiv1 hns
  refine ⟨?_, ?_, ?_, ?_⟩
  · exact le_trans (nps_le_npsRaw mx my w h ns LY) (Nat.min_le_right _ _)
  · intro hlt
    simp only [num_parallel_samplesFA]
    rw [if_neg (by omega)]
  · intro hge
    simp only [num_parallel_samplesFA]
    rw [if_pos hge]
    exact ⟨npsRaw mx my w h ns LY / 64, Nat.mul_comm _ _⟩
  · simp only [num_parallel_samplesFA]
    by_cases h64 : 64 ≤ npsRaw mx my w h ns LY
    · rw [if_pos h64]
      have hq : 1 ≤ npsRaw mx my w h ns LY / 64 := by
        rw [Nat.le_div_iff_mul_le (by norm_num)]
        omega
      omega
    · rw [if_neg h64]
      omega

/-- Claim C3 witness: the parallel-sample properties at a concrete
in-range instance. -/
theorem claim3_witness :
    num_parallel_samplesFA 2 2 1 1 1 1 ≤ 1 ∧
    num_parallel_samplesFA 2 2 1 1 1 1 = npsRaw 2 2 1 1 1 1 ∧
    num_parallel_samplesFA 2 2 1 1 1 1 ≠ 0 :=
  ⟨(claim3_num_parallel_samples 2 2 1 1 1 1 (by decide) (by decide) (by decide)
      (by decide) (by decide) (by decide) (by decide) (by norm_num)).1,
   (claim3_num_parallel_samples 2 2 1 1 1 1 (by decide) (by decide) (by decide)
      (by decide) (by decide) (by decide) (by decide) (by norm_num)).2.1 (by decide),
   (claim3_num_parallel_samples 2 2 1 1 1 1 (by decide) (by decide) (by decide)
      (by decide) (by decide) (by decide) (by decide) (by norm_num)).2.2.2⟩

theorem budgetUpdate_no_intervention (INC pit0 : Nat) (hdvd : INC ∣ pit0)
    (hpos : 0 < pit0) (hp32 : pit0 < 4294967296) :
    usub32 pit0 INC = pit0 - INC ∧
    budgetUpdate INC 0 pit0 = max INC (pit0 - INC) ∧
    INC ∣ max INC (pit0 - INC) ∧ INC ≤ max INC (pit0 - INC) := by
  have hIncPos : 0 < INC := by
    rcases Nat.eq_zero_or_pos INC with h0 | h
    · rw [h0] at hdvd
      have := Nat.eq_zero_of_zero_dvd hdvd
      omega
    · exact h
  have hIle : INC ≤ pit0 := Nat.le_of_dvd hpos hdvd
  have hus : usub32 pit0 INC = pit0 - INC := usub32_of_le hIle hp32
  have hbu : budgetUpdate INC 0 pit0 =
      if usub32 pit0 INC ≤ 0 then INC else usub32 pit0 INC := by
    rw [budgetUpdate, if_pos rfl]
  by_cases hz : pit0 - INC = 0
  · have hmax : max INC (pit0 - INC) = INC := by
      rw [hz]
      exact Nat.max_eq_left (Nat.zero_le _)
    refine ⟨hus, ?_, ?_, ?_⟩
    · rw [hbu, hus, if_pos (by omega), hmax]
    · rw [hmax]
    · rw [hmax]
  · have h2 : INC ≤ pit0 - INC := by
      obtain ⟨m, hm⟩ := hdvd
      have hmul : INC * m = INC * (m - 1) + INC := by
        have hmpos : 0 < m := by
          rcases Nat.eq_zero_or_pos m with h0 | h
          · rw [h0, Nat.mul_zero] at hm; omega
          · exact h
        conv_lhs => rw [← Nat.succ_pred_eq_of_pos hmpos]
        rw [Nat.mul_succ, Nat.pred_eq_sub_one]
      have hm2 : 2 ≤ m := by
        by_contra hlt
        push_neg at hlt
        rcases (by omega : m = 0 ∨ m = 1) with rfl | rfl
        · rw [Nat.mul_zero] at hm; omega
        · rw [Nat.mul_one] at hm; omega
      have hle' : INC ≤ INC * (m - 1) :=
        Nat.le_mul_of_pos_right INC (by omega)
      omega
    have hmax : max INC (pit0 - INC) = pit0 - INC := Nat.max_eq_right h2
    refine ⟨hus, ?_, ?_, ?_⟩
    · rw [hbu, hus, if_neg (by omega), hmax]
    · rw [hmax]
      exact Nat.dvd_sub' hdvd dvd_rfl
    · rw [hmax]
      exact h2

/-- Claim C1: round-budget controller across consecutive successfully
processed tiles: if zero host interventions occur during a tile, the
next tile's starting round budget is `max(increment, budget - increment)`;
if `k ≥ 1` interventions occur it is `budget + k * increment`, with
`increment = PATH_ITER_INC_FACTOR`. -/
theorem claim1_next_tile_budget (cfg : SKConfig) (st : DeviceSplitKernel)
    (o : Oracle) (rtile : RenderTile) (mt : Int2) (p fuel : Nat) (r : PTResult)
    (heq : pathTrace cfg st o rtile mt p fuel = some r)
    (hs : r.success = true)
    (hdvd : cfg.INC ∣ st.path_iteration_times)
    (hpos : 0 < st.path_iteration_times)
    (hsmall : st.path_iteration_times + r.numHI * cfg.INC < 4294967296) :
    (r.numHI = 0 →
      r.st.path_iteration_times =
        max cfg.INC (st.path_iteration_times - cfg.INC)) ∧
    (1 ≤ r.numHI →
      r.st.path_iteration_times =
        st.path_iteration_times + r.numHI * cfg.INC) := by
  obtain ⟨-, lo, hlo, hok, -, hHI, -, -, hst, -, -⟩ :=
    pathTrace_success_elim cfg st o rtile mt p fuel r heq hs
  have hp32 : st.path_iteration_times < 4294967296 := by omega
  obtain ⟨-, hnn⟩ := outerLoop_numNext o cfg.RAY_INACTIVE cfg.INC
    (globalSize0 cfg rtile mt) (globalSize1 cfg rtile) cfg.LX cfg.LY
    _ _ _ _ _ _ _ _ _ hlo hok hp32
  rw [Nat.sub_zero] at hnn
  rw [hHI] at hsmall
  have hnn' : lo.numNext = st.path_iteration_times + lo.numHI * cfg.INC := by
    rw [hnn]
    exact u32_eq_of_lt hsmall
  have hpit : r.st.path_iteration_times =
      budgetUpdate cfg.INC lo.numHI lo.numNext := by
    rw [hst]
  constructor
  · intro h0
    have hlo0 : lo.numHI = 0 := by rw [← hHI]; exact h0
    obtain ⟨-, hbu, -, -⟩ := budgetUpdate_no_intervention cfg.INC
      st.path_iteration_times hdvd hpos hp32
    rw [hpit, hlo0, hnn', hlo0]
    simpa using hbu
  · intro h1
    have hlo1 : 1 ≤ lo.numHI := by rw [← hHI]; exact h1
    rw [hpit, hnn', ← hHI]
    rw [budgetUpdate, if_neg (by omega)]

/-- Claim C1 witness: a quiet tile (zero interventions) starting at
budget `INC = 2` keeps budget `max(2, 2 - 2) = 2` for the next tile. -/
theorem claim1_witness :
    resW.st.path_iteration_times =
      max cfgW.INC
        ((DeviceSplitKernel.construct cfgW).path_iteration_times - cfgW.INC) :=
  (claim1_next_tile_budget cfgW (DeviceSplitKernel.construct cfgW) oQuiet tHW
    mtHW 0 2 resW (by rfl) (by rfl) (by decide) (by decide) (by decide)).1
    (by rfl)

/-- Claim C10: `path_iteration_times` is a positive multiple of
`PATH_ITER_INC_FACTOR` after construction and (inductively) after every
completed `path_trace` call, hence the `unsigned` subtraction
`numNextPathIterTimes - PATH_ITER_INC_FACTOR` in the budget-decrease
branch computes exactly the mathematical difference — it never wraps
below zero. -/
theorem claim10_budget_invariant (cfg : SKConfig) (st : DeviceSplitKernel)
    (o : Oracle) (rtile : RenderTile) (mt : Int2) (p fuel : Nat) (r : PTResult)
    (heq : pathTrace cfg st o rtile mt p fuel = some r)
    (hs : r.success = true)
    (hdvd : cfg.INC ∣ st.path_iteration_times)
    (hpos : 0 < st.path_iteration_times)
    (hsmall : st.path_iteration_times + r.numHI * cfg.INC < 4294967296) :
    (0 < cfg.INC ∧
     (DeviceSplitKernel.construct cfg).path_iteration_times = cfg.INC) ∧
    (cfg.INC ∣ r.st.path_iteration_times ∧
     cfg.INC ≤ r.st.path_iteration_times) ∧
    (r.numHI = 0 →
      cfg.INC ≤ r.numNext ∧
      usub32 r.numNext cfg.INC = r.numNext - cfg.INC) := by
  obtain ⟨-, lo, hlo, hok, -, hHI, hNN, -, hst, -, -⟩ :=
    pathTrace_success_elim cfg st o rtile mt p fuel r heq hs
  have hIncPos : 0 < cfg.INC := by
    rcases Nat.eq_zero_or_pos cfg.INC with h0 | h
    · rw [h0] at hdvd
      have := Nat.eq_zero_of_zero_dvd hdvd
      omega
    · exact h
  have hIle : cfg.INC ≤ st.path_iteration_times := Nat.le_of_dvd hpos hdvd
  have hp32 : st.path_iteration_times < 4294967296 := by omega
  obtain ⟨-, hnn⟩ := outerLoop_numNext o cfg.RAY_INACTIVE cfg.INC
    (globalSize0 cfg rtile mt) (globalSize1 cfg rtile) cfg.LX cfg.LY
    _ _ _ _ _ _ _ _ _ hlo hok hp32
  rw [Nat.sub_zero] at hnn
  rw [hHI] at hsmall
  have hnn' : lo.numNext = st.path_iteration_times + lo.numHI * cfg.INC := by
    rw [hnn]
    exact u32_eq_of_lt hsmall
  have hpit : r.st.path_iteration_times =
      budgetUpdate cfg.INC lo.numHI lo.numNext := by
    rw [hst]
  refine ⟨⟨hIncPos, rfl⟩, ?_, ?_⟩
  · by_cases h0 : lo.numHI = 0
    · obtain ⟨-, hbu, hdvd', hle'⟩ := budgetUpdate_no_intervention cfg.INC
        st.path_iteration_times hdvd hpos hp32
      rw [hpit, h0, hnn', h0]
      simp only [Nat.zero_mul, Nat.add_zero]
      rw [hbu]
      exact ⟨hdvd', hle'⟩
    · rw [hpit, budgetUpdate, if_neg h0, hnn']
      constructor
      · exact Nat.dvd_add hdvd (Dvd.dvd.mul_left dvd_rfl lo.numHI)
      · omega
  · intro h0
    have hlo0 : lo.numHI = 0 := by rw [← hHI]; exact h0
    have hrn : r.numNext = st.path_iteration_times := by
      rw [hNN, hnn', hlo0]
      simp
    rw [hrn]
    exact ⟨hIle, usub32_of_le hIle hp32⟩

/-- Claim C10 witness: the invariant and the wrap-free subtraction at a
concrete quiet run starting from the freshly constructed scheduler. -/
theorem claim10_witness :
    (0 < cfgW.INC ∧
     (DeviceSplitKernel.construct cfgW).path_iteration_times = cfgW.INC) ∧
    (cfgW.INC ∣ resW.st.path_iteration_times ∧
     cfgW.INC ≤ resW.st.path_iteration_times) ∧
    (cfgW.INC ≤ resW.numNext ∧
     usub32 resW.numNext cfgW.INC = resW.numNext - cfgW.INC) :=
  ⟨(claim10_budget_invariant cfgW (DeviceSplitKernel.construct cfgW) oQuiet tHW
      mtHW 0 2 resW (by rfl) (by rfl) (by decide) (by decide) (by decide)).1,
   (claim10_budget_invariant cfgW (DeviceSplitKernel.construct cfgW) oQuiet tHW
      mtHW 0 2 resW (by rfl) (by rfl) (by decide) (by decide) (by decide)).2.1,
   (claim10_budget_invariant cfgW (DeviceSplitKernel.construct cfgW) oQuiet tHW
      mtHW 0 2 resW (by rfl) (by rfl) (by decide) (by decide) (by decide)).2.2
      (by rfl)⟩

/-- Claim C4: when the outer iteration loop of `path_trace` terminates
without cancellation having been observed, the final host-side scan of
the ray-state array found every lane in the dispatch area equal to
`RAY_INACTIVE`. -/
theorem claim4_all_inactive_on_exit (cfg : SKConfig) (st : DeviceSplitKernel)
    (o : Oracle) (rtile : RenderTile) (mt : Int2) (p fuel : Nat) (r : PTResult)
    (heq : pathTrace cfg st o rtile mt p fuel = some r)
    (hs : r.success = true) (hnc : r.canceled = false) :
    0 < r.outerIters ∧
    ∀ i, i < globalSize0 cfg rtile mt * globalSize1 cfg rtile →
      o.ray (r.outerIters - 1) i = cfg.RAY_INACTIVE := by
  obtain ⟨-, lo, hlo, hok, hca, -, -, hOI, -, -, -⟩ :=
    pathTrace_success_elim cfg st o rtile mt p fuel r heq hs
  have hca' : lo.canceled = false := by rw [← hca]; exact hnc
  obtain ⟨hlt, hscan⟩ := outerLoop_inactive_exit o cfg.RAY_INACTIVE cfg.INC
    (globalSize0 cfg rtile mt) (globalSize1 cfg rtile) cfg.LX cfg.LY
    _ _ _ _ _ _ _ _ _ hlo hok hca'
  refine ⟨by omega, ?_⟩
  intro i hi
  rw [hOI]
  simp only [scanActive, List.any_eq_false, List.mem_range] at hscan
  have := hscan i hi
  simpa using this

/-- Claim C4 witness: a quiet converged run reports one outer iteration
and the scanned lane 0 equal to `RAY_INACTIVE`. -/
theorem claim4_witness :
    0 < resW.outerIters ∧ oQuiet.ray (resW.outerIters - 1) 0 = cfgW.RAY_INACTIVE :=
  ⟨(claim4_all_inactive_on_exit cfgW (DeviceSplitKernel.construct cfgW) oQuiet
      tHW mtHW 0 2 resW (by rfl) (by rfl) (by rfl)).1,
   (claim4_all_inactive_on_exit cfgW (DeviceSplitKernel.construct cfgW) oQuiet
      tHW mtHW 0 2 resW (by rfl) (by rfl) (by rfl)).2 0 (by decide)⟩

theorem roundKernels_not_sum (k : SKern) (hk : k ∈ roundKernels)
    (g0 g1 l0 l1 : Nat) :
    Event.isSumEnq (Event.enq k g0 g1 l0 l1) = false := by
  fin_cases hk <;> rfl

/-- Claim C7: with a monotone (latching) cancellation flag, if cancellation
is observed during a tile — mid-batch or after the activity scan — then
`path_trace` skips the `sum_all_radiance` reduction stage entirely (so no
radiance is added to the tile's output buffer) and still returns success
(`true`), not an error. -/
theorem claim7_cancellation_skips_reduction (cfg : SKConfig)
    (st : DeviceSplitKernel) (o : Oracle) (rtile : RenderTile) (mt : Int2)
    (p fuel : Nat) (r : PTResult)
    (hmono : ∀ i j, i ≤ j → o.cancel i = true → o.cancel j = true)
    (heq : pathTrace cfg st o rtile mt p fuel = some r)
    (hc : r.canceled = true) :
    r.success = true ∧ r.events.all (fun e => !e.isSumEnq) = true := by
  have hsuc : r.success = true := by
    by_contra hns
    simp only [Bool.not_eq_true] at hns
    rcases pathTrace_failure_elim cfg st o rtile mt p fuel r heq hns with
      ⟨-, -, -, hcf⟩ | ⟨-, lo, hlo, -, hcanc, hcase⟩
    · rw [hcf] at hc; cases hc
    · rcases hcase with ⟨hokf, -⟩ | ⟨-, hcaf, -, -⟩
      · have hloc : lo.canceled = true := by rw [← hcanc]; exact hc
        have := outerLoop_canceled_ok o cfg.RAY_INACTIVE cfg.INC
          (globalSize0 cfg rtile mt) (globalSize1 cfg rtile) cfg.LX cfg.LY hmono
          _ _ _ _ _ _ _ _ hlo hloc
        rw [hokf] at this
        cases this
      · have hloc : lo.canceled = true := by rw [← hcanc]; exact hc
        rw [hcaf] at hloc
        cases hloc
  refine ⟨hsuc, ?_⟩
  obtain ⟨-, lo, hlo, -, hca, -, -, -, -, hevc, -⟩ :=
    pathTrace_success_elim cfg st o rtile mt p fuel r heq hsuc
  have hloc : lo.canceled = true := by rw [← hca]; exact hc
  rw [hevc hloc, List.all_eq_true]
  intro e hee
  rcases List.mem_append.mp hee with h1 | h2
  · rcases List.mem_append.mp h1 with ha | hd
    · by_cases hft : st.first_tile = true
      · rw [hft] at ha
        simp only [if_true] at ha
        have := (allocEvents_classify cfg st mt p e ha).2.2.2
        simp [this]
      · simp only [Bool.not_eq_true] at hft
        rw [hft] at ha
        simp at ha
    · have he' := List.mem_singleton.mp hd
      subst he'
      rfl
  · rcases outerLoop_events_mem o cfg.RAY_INACTIVE cfg.INC
        (globalSize0 cfg rtile mt) (globalSize1 cfg rtile) cfg.LX cfg.LY
        _ _ _ _ _ _ _ _ _ hlo e h2 with ⟨k, hk, rfl⟩ | rfl
    · have := roundKernels_not_sum k hk
        (kernelGlobal0 k (globalSize0 cfg rtile mt)) (globalSize1 cfg rtile)
        cfg.LX cfg.LY
      simp [this]
    · rfl

/-- Claim C7 witness: a run canceled at the first poll returns success and
its event log contains no reduction enqueue. -/
theorem claim7_witness :
    resW7.success = true ∧ resW7.events.all (fun e => !e.isSumEnq) = true :=
  claim7_cancellation_skips_reduction cfgW (DeviceSplitKernel.construct cfgW)
    oCancelW tHW mtHW 0 2 resW7 (fun _ _ _ h => h) (by rfl) (by rfl)

/-- Claim C8: if the data-init dispatch or any stage enqueue returns
`false`, `path_trace` returns `false` with no retry: no free of the lane
buffers occurs, the first-tile flag is left as it was, after a data-init
failure no stage is enqueued at all, and after a stage-enqueue failure
the log contains exactly the enqueues up to and including the first
failing one (all earlier enqueues succeeded). -/
theorem claim8_failure_aborts_immediately (cfg : SKConfig)
    (st : DeviceSplitKernel) (o : Oracle) (rtile : RenderTile) (mt : Int2)
    (p fuel : Nat) (r : PTResult)
    (heq : pathTrace cfg st o rtile mt p fuel = some r)
    (hs : r.success = false) :
    r.events.all (fun e => !e.isFree) = true ∧
    r.st.first_tile = st.first_tile ∧
    (o.dataInitOk = false → countEnq r.events = 0) ∧
    (o.dataInitOk = true →
      ∃ n, o.enqOk n = false ∧ (∀ i, i < n → o.enqOk i = true) ∧
        countEnq r.events = n + 1) := by
  have hcA : countEnq (if st.first_tile then allocEvents cfg st mt p else []) = 0 := by
    by_cases hft : st.first_tile = true
    · rw [hft, if_pos rfl]
      exact countEnq_allocEvents cfg st mt p
    · simp only [Bool.not_eq_true] at hft
      rw [hft]
      simp [countEnq]
  have hcD : countEnq [Event.dataInit (globalSize0 cfg rtile mt)
      (globalSize1 cfg rtile) cfg.LX cfg.LY] = 0 := by
    simp [countEnq, Event.isEnq]
  have hcS : countEnq [Event.enq SKern.sum_all_radiance (roundUp rtile.w 16)
      (roundUp rtile.h 16) 16 16] = 1 := by
    simp [countEnq, Event.isEnq]
  refine ⟨?_, (pathTrace_first_tile cfg st o rtile mt p fuel r heq).2 hs, ?_, ?_⟩
  · rw [List.all_eq_true]
    intro e he
    have := pathTrace_no_free cfg st o rtile mt p fuel r heq e he
    simp [this]
  · intro hd
    rcases pathTrace_failure_elim cfg st o rtile mt p fuel r heq hs with
      ⟨-, hev, -, -⟩ | ⟨hd', -⟩
    · rw [hev, countEnq_append, hcA, hcD]
    · rw [hd'] at hd
      cases hd
  · intro hd
    rcases pathTrace_failure_elim cfg st o rtile mt p fuel r heq hs with
      ⟨hd', -, -, -⟩ | ⟨-, lo, hlo, -, -, hcase⟩
    · rw [hd'] at hd
      cases hd
    · obtain ⟨hen0, hcount⟩ := outerLoop_enqIdx o cfg.RAY_INACTIVE cfg.INC
        (globalSize0 cfg rtile mt) (globalSize1 cfg rtile) cfg.LX cfg.LY
        _ _ _ _ _ _ _ _ _ hlo
      rw [Nat.zero_add] at hcount
      rcases hcase with ⟨hokf, hev⟩ | ⟨hok, -, hse, hev⟩
      · obtain ⟨hf1, hf2, hf3⟩ := outerLoop_ok_false o cfg.RAY_INACTIVE cfg.INC
          (globalSize0 cfg rtile mt) (globalSize1 cfg rtile) cfg.LX cfg.LY
          _ _ _ _ _ _ _ _ _ hlo hokf
        refine ⟨lo.enqIdx - 1, hf1, ?_, ?_⟩
        · intro i hi
          exact hf2 i (Nat.zero_le i) hi
        · rw [hev, countEnq_append, countEnq_append, hcA, hcD, ← hcount]
          omega
      · have hall := outerLoop_ok_enq o cfg.RAY_INACTIVE cfg.INC
          (globalSize0 cfg rtile mt) (globalSize1 cfg rtile) cfg.LX cfg.LY
          _ _ _ _ _ _ _ _ _ hlo hok
        refine ⟨lo.enqIdx, hse, ?_, ?_⟩
        · intro i hi
          exact hall i (Nat.zero_le i) hi
        · rw [hev, countEnq_append, countEnq_append, countEnq_append,
            hcA, hcD, hcS, ← hcount]
          omega

/-- Claim C8 witness: the run aborted by the enqueue failure at index 3
frees nothing and leaves the first-tile flag as it was. -/
theorem claim8_witness :
    resW8.events.all (fun e => !e.isFree) = true ∧
    resW8.st.first_tile = (DeviceSplitKernel.construct cfgW).first_tile :=
  ⟨(claim8_failure_aborts_immediately cfgW (DeviceSplitKernel.construct cfgW)
      oFailW tHW mtHW 0 2 resW8 (by rfl) (by rfl)).1,
   (claim8_failure_aborts_immediately cfgW (DeviceSplitKernel.construct cfgW)
      oFailW tHW mtHW 0 2 resW8 (by rfl) (by rfl)).2.1⟩

/-- Claim C5 counterexample: as stated — over every sequence of `N ≥ 1`
calls — allocation is not confined to the first call: when the first
call fails (data-init failure) the first-tile flag stays set, and the
second call performs the lane-buffer allocations again. -/
theorem claim5_counterexample :
    runC5.1.length = 2 ∧
    ∃ r' ∈ runC5.1.drop 1, r'.events.any Event.isAlloc = true := by
  decide

/-- Claim C5 (amended): for every sequence of calls on one scheduler
instance whose FIRST call succeeds, the lane-state buffers are allocated
during exactly that first call, and no allocation occurs during any
subsequent call. -/
theorem claim5_alloc_only_first_success (cfg : SKConfig) (c : CallInput)
    (cs : List CallInput) (r : PTResult) (rs : List PTResult)
    (st' : DeviceSplitKernel)
    (heq : runCalls cfg (DeviceSplitKernel.construct cfg) (c :: cs) =
      some (r :: rs, st'))
    (hs : r.success = true) :
    r.events.any Event.isAlloc = true ∧
    ∀ r' ∈ rs, r'.events.all (fun e => !e.isAlloc) = true := by
  simp only [runCalls] at heq
  cases hp : pathTrace cfg (DeviceSplitKernel.construct cfg) c.o c.rtile c.mt
      c.per_thread_output_buffer_size c.fuel with
  | none => rw [hp] at heq; simp at heq
  | some r0 =>
    rw [hp] at heq
    dsimp only at heq
    cases hrc : runCalls cfg r0.st cs with
    | none => rw [hrc] at heq; simp at heq
    | some pr =>
      obtain ⟨rs0, st0⟩ := pr
      rw [hrc] at heq
      dsimp only at heq
      have h2 := Option.some.inj heq
      have hL : r0 :: rs0 = r :: rs := congrArg Prod.fst h2
      obtain ⟨hr0, hrs0⟩ : r0 = r ∧ rs0 = rs := by
        constructor
        · exact (List.cons.injEq _ _ _ _ ▸ hL).1
        · exact (List.cons.injEq _ _ _ _ ▸ hL).2
      subst hr0
      subst hrs0
      constructor
      · obtain ⟨e, he, ha⟩ := pathTrace_alloc_of_first cfg
          (DeviceSplitKernel.construct cfg) c.o c.rtile c.mt
          c.per_thread_output_buffer_size c.fuel r0 rfl hp
        exact List.any_eq_true.mpr ⟨e, he, ha⟩
      · have hft0 : r0.st.first_tile = false :=
          (pathTrace_first_tile cfg (DeviceSplitKernel.construct cfg) c.o c.rtile
            c.mt c.per_thread_output_buffer_size c.fuel r0 hp).1 hs
        intro r' hr'
        rw [List.all_eq_true]
        intro e he
        have := runCalls_no_alloc cfg cs r0.st _ st0 hft0 hrc r' hr' e he
        simp [this]

/-- Claim C5 witness: two successful calls — the first call's log contains
an allocation, the second call's log contains none. -/
theorem claim5_witness :
    (runW5.1.headD default).events.any Event.isAlloc = true ∧
    (runW5.1.tail.getD 0 default).events.all (fun e => !e.isAlloc) = true :=
  ⟨(claim5_alloc_only_first_success cfgW5 cinW5 [cinW5] (runW5.1.headD default)
      runW5.1.tail runW5.2 (by rfl) (by rfl)).1,
   (claim5_alloc_only_first_success cfgW5 cinW5 [cinW5] (runW5.1.headD default)
      runW5.1.tail runW5.2 (by rfl) (by rfl)).2 (runW5.1.tail.getD 0 default)
      (by decide)⟩
